import Mathlib

/-!
Verification of the Script Index Builder/Merger
(`scripts/generate-script-index.ts` and the archived
`scripts/archived/import-missing-scripts.ts`).

The TypeScript source is shallowly embedded: JavaScript objects with
optional fields become structures with `Option` fields, JS string maps
(`Record<string, T>`) become insertion-ordered association lists with
JS-object semantics (update in place, append new keys at the end), and
JS truthiness of optional strings (`undefined` and `""` are falsy) is
modelled by `strFalsy`.  `String.prototype.toLowerCase` is modelled on
the ASCII range, which covers the hex hashes and labels the tool
manipulates.  The external db-sync lookup is an injected deterministic
oracle `Option (String → DbResult)`; `DbResult.threw` models a query
that raises, `DbResult.rows` a result set (the `type` column of each
row).
-/

/-- ASCII lower-casing of one character (model of JS `toLowerCase` on
the ASCII range). -/
def lowerChar : Char → Char
  | 'A' => 'a' | 'B' => 'b' | 'C' => 'c' | 'D' => 'd' | 'E' => 'e' | 'F' => 'f'
  | 'G' => 'g' | 'H' => 'h' | 'I' => 'i' | 'J' => 'j' | 'K' => 'k' | 'L' => 'l'
  | 'M' => 'm' | 'N' => 'n' | 'O' => 'o' | 'P' => 'p' | 'Q' => 'q' | 'R' => 'r'
  | 'S' => 's' | 'T' => 't' | 'U' => 'u' | 'V' => 'v' | 'W' => 'w' | 'X' => 'x'
  | 'Y' => 'y' | 'Z' => 'z'
  | c => c

/-- Model of JS `s.toLowerCase()` (ASCII range). -/
def jsToLowerCase (s : String) : String := String.mk (s.data.map lowerChar)

/-- JS truthiness test for an optional string: `undefined` and `""` are
falsy. -/
def strFalsy : Option String → Bool
  | none => true
  | some s => s == ""

/-- JS `a || b` on two optional strings. -/
def jsOrOpt (a b : Option String) : Option String := if strFalsy a then b else a

/-- JS `a || d` where `d` is a (truthy) default string. -/
def jsOrDefault (a : Option String) (d : String) : String :=
  match a with
  | none => d
  | some s => if s == "" then d else s

/-- `scripts/archived/import-missing-scripts.ts`, `normalizeHash`:
a 112-character hash (payment + staking credential) is truncated to its
first 56 characters (`hash.slice(0, 56)`); everything is lower-cased. -/
def normalizeHash (hash : String) : String :=
  if hash.length = 112 then jsToLowerCase (String.mk (hash.data.take 56))
  else jsToLowerCase hash

/-! ## `toKebabCase` (generate-script-index.ts lines 105-111) -/

def isAsciiLower (c : Char) : Bool := 'a' ≤ c && c ≤ 'z'
def isAsciiUpper (c : Char) : Bool := 'A' ≤ c && c ≤ 'Z'
def isAsciiDigit (c : Char) : Bool := '0' ≤ c && c ≤ '9'

/-- Stage 1 of `toKebabCase`: `.replace(/([a-z])([A-Z])/g, '$1-$2')` —
insert a hyphen between a lower-case letter and an upper-case letter. -/
def insertHyphens : List Char → List Char
  | [] => []
  | [c] => [c]
  | a :: b :: rest =>
    if isAsciiLower a && isAsciiUpper b then a :: '-' :: insertHyphens (b :: rest)
    else a :: insertHyphens (b :: rest)

/-- Characters matched by the `[\s_]` class (ASCII part of JS `\s`,
plus underscore). -/
def isSpaceOrUnderscore (c : Char) : Bool :=
  c == ' ' || c == '_' || c == '\t' || c == '\n' || c == '\r' ||
  c == '\x0b' || c == '\x0c'

/-- Stage 2 of `toKebabCase`: `.replace(/[\s_]+/g, '-')` — each maximal
run of whitespace/underscore becomes a single hyphen. -/
def collapseRuns : List Char → List Char
  | [] => []
  | c :: rest =>
    if isSpaceOrUnderscore c then
      match rest with
      | [] => ['-']
      | r :: _ =>
        if isSpaceOrUnderscore r then collapseRuns rest
        else '-' :: collapseRuns rest
    else c :: collapseRuns rest

/-- Stage 3 of `toKebabCase`: `.replace(/[^a-z0-9-]/gi, '')` — keep
only ASCII letters, digits and hyphens. -/
def keepKebabChar (c : Char) : Bool :=
  isAsciiLower c || isAsciiUpper c || isAsciiDigit c || c == '-'

/-- `generate-script-index.ts`, `toKebabCase`: the projectId slug
derived from a project label. -/
def toKebabCase (s : String) : String :=
  String.mk (((collapseRuns (insertHyphens s.data)).filter keepKebabChar).map lowerChar)

/-! ## Data model -/

/-- A script inside a project record (`ProjectScript` in the source). -/
structure ProjectScript where
  name : String
  scriptHash : String
  purpose : Option String
  type : Option String
  plutusVersion : Option Nat
deriving Repr, DecidableEq

/-- A project record file (`Project` in the source); `linkWebsite`
models `link?.website`. -/
structure Project where
  label : Option String
  projectName : Option String
  category : Option String
  subCategory : Option String
  linkWebsite : Option String
  scripts : List ProjectScript
deriving Repr, DecidableEq

/-- An entry of the index `scripts` map (`ScriptEntry` in the source). -/
structure ScriptEntry where
  projectId : String
  name : String
  purpose : Option String
  type : Option String
  plutusVersion : Option Nat
deriving Repr, DecidableEq

/-- An entry of the index `projects` map (`ProjectEntry` in the source). -/
structure ProjectEntry where
  label : String
  category : String
  subCategory : Option String
  link : Option String
deriving Repr, DecidableEq

/-- `metadata` of the script index. -/
structure IndexMetadata where
  generatedAt : String
  scriptCount : Nat
  projectCount : Nat
deriving Repr, DecidableEq

/-! JS objects used as string maps are modelled as insertion-ordered
association lists: assignment updates an existing key in place and
appends a fresh key at the end, exactly like JS property assignment. -/

/-- Lookup in a JS-object map. -/
def mapGet {α : Type} : List (String × α) → String → Option α
  | [], _ => none
  | (k', v) :: rest, k => if k' = k then some v else mapGet rest k

/-- Assignment in a JS-object map. -/
def mapSet {α : Type} : List (String × α) → String → α → List (String × α)
  | [], k, v => [(k, v)]
  | (k', v') :: rest, k, v =>
    if k' = k then (k', v) :: rest else (k', v') :: mapSet rest k v

/-- The aggregate script index (`ScriptIndex` in the source). -/
structure ScriptIndex where
  metadata : IndexMetadata
  scripts : List (String × ScriptEntry)
  projects : List (String × ProjectEntry)
deriving Repr, DecidableEq

/-! ## External db-sync lookup (`lookupScriptInfo`, lines 113-144) -/

/-- A classification returned by the external lookup. -/
structure ScriptInfo where
  type : String
  plutusVersion : Nat
deriving Repr, DecidableEq

/-- Raw outcome of the SQL query: either it threw, or it returned the
`type` column of each row. -/
inductive DbResult where
  | threw : DbResult
  | rows : List String → DbResult
deriving Repr, DecidableEq

/-- Does the regex `/PlutusV(\d)/i` match at the head of this character
list?  Returns the captured digit. -/
def isPlutusVAt : List Char → Option Nat
  | p :: l :: u :: t :: u2 :: s :: v :: d :: _ =>
    if lowerChar p == 'p' && lowerChar l == 'l' && lowerChar u == 'u' &&
       lowerChar t == 't' && lowerChar u2 == 'u' && lowerChar s == 's' &&
       lowerChar v == 'v' && d.isDigit then
      some (d.toNat - '0'.toNat)
    else none
  | _ => none

/-- First match of `/PlutusV(\d)/i` in a string: scan left to right. -/
def findPlutusV : List Char → Option Nat
  | [] => none
  | c :: rest =>
    match isPlutusVAt (c :: rest) with
    | some d => some d
    | none => findPlutusV rest

/-- `lookupScriptInfo`: query db-sync for the script's `type` column.
`timelock` maps to NATIVE/0, `PlutusV<n>` (case-insensitive) to
PLUTUS/n; a missing pool, a thrown query, an empty result set or an
unparseable classification all yield `none` (the surrounding
`try`/`catch` turns every exception into `null`). -/
def lookupScriptInfo (db : Option (String → DbResult)) (scriptHash : String) : Option ScriptInfo :=
  match db with
  | none => none
  | some query =>
    match query scriptHash with
    | DbResult.threw => none
    | DbResult.rows [] => none
    | DbResult.rows (dbType :: _) =>
      if dbType = "timelock" then some ⟨"NATIVE", 0⟩
      else
        match findPlutusV dbType.data with
        | some d => some ⟨"PLUTUS", d⟩
        | none => none

/-! ## Builder state (`generateScriptIndex`, lines 146-355)

The mutable locals of `generateScriptIndex` — the `scripts` and
`projects` maps, the `added`/`updated`/`unchanged`/`lookupCount`
counters, the `+ Project:` log events and the `projectFilesToUpdate`
map — are gathered into one state record threaded through the loop. -/

structure BuilderState where
  scripts : List (String × ScriptEntry)
  projects : List (String × ProjectEntry)
  added : Nat
  updated : Nat
  unchanged : Nat
  lookupCount : Nat
  projectEvents : List String
  filesToUpdate : List (String × Project)
deriving Repr, DecidableEq

/-- Outcome of resolving one script (lines 228-271): the candidate
index entry, the script object after back-propagation, whether the
owning project record was marked dirty, and how many db lookups were
issued. -/
structure StepOut where
  entry : ScriptEntry
  script : ProjectScript
  modified : Bool
  lookups : Nat
deriving Repr, DecidableEq

/-- Lines 235-247: the existing index entry has a truthy `type` and a
present `plutusVersion`; copy the missing fields onto the local
variables and back-propagate them onto the script object. -/
def copyFromIndex (projectId : String) (s : ProjectScript)
    (exType : Option String) (exPv : Option Nat) : StepOut :=
  let type1 := if strFalsy s.type then exType else s.type
  let pv1 := if s.plutusVersion.isNone then exPv else s.plutusVersion
  let m1 := strFalsy s.type && !(strFalsy exType)
  let s1 := if m1 then { s with type := exType } else s
  let m2 := s.plutusVersion.isNone && exPv.isSome
  let s2 := if m2 then { s1 with plutusVersion := exPv } else s1
  ⟨⟨projectId, s.name, s.purpose, type1, pv1⟩, s2, m1 || m2, 0⟩

/-- Lines 248-270: fall back to the db-sync lookup (when configured);
a found classification fills the missing fields and back-propagates
them, a miss leaves everything as it was. -/
def dbStep (db : Option (String → DbResult)) (projectId : String) (s : ProjectScript) : StepOut :=
  match db with
  | none => ⟨⟨projectId, s.name, s.purpose, s.type, s.plutusVersion⟩, s, false, 0⟩
  | some query =>
    match lookupScriptInfo (some query) (jsToLowerCase s.scriptHash) with
    | none => ⟨⟨projectId, s.name, s.purpose, s.type, s.plutusVersion⟩, s, false, 1⟩
    | some info =>
      let type1 := if strFalsy s.type then some info.type else s.type
      let pv1 := if s.plutusVersion.isNone then some info.plutusVersion else s.plutusVersion
      let m1 := strFalsy s.type && info.type != ""
      let s1 := if m1 then { s with type := some info.type } else s
      let m2 := s.plutusVersion.isNone
      let s2 := if m2 then { s1 with plutusVersion := some info.plutusVersion } else s1
      ⟨⟨projectId, s.name, s.purpose, type1, pv1⟩, s2, m1 || m2, 1⟩

/-- The Metadata Resolver (lines 228-279): build the candidate entry
for one script, resolving missing `type`/`plutusVersion` first from the
existing index entry, then from db-sync. -/
def scriptStep (db : Option (String → DbResult)) (projectId : String)
    (existing : Option ScriptEntry) (s : ProjectScript) : StepOut :=
  if strFalsy s.type || s.plutusVersion.isNone then
    match existing with
    | some ex =>
      if !(strFalsy ex.type) && ex.plutusVersion.isSome then
        copyFromIndex projectId s ex.type ex.plutusVersion
      else dbStep db projectId s
    | none => dbStep db projectId s
  else
    ⟨⟨projectId, s.name, s.purpose, s.type, s.plutusVersion⟩, s, false, 0⟩

/-- Field-wise difference test of the Diff Tracker (lines 285-291). -/
def entriesDiffer (a b : ScriptEntry) : Bool :=
  a.projectId != b.projectId || a.name != b.name || a.purpose != b.purpose ||
  a.type != b.type || a.plutusVersion != b.plutusVersion

/-- The Diff Tracker (lines 281-297): insert / overwrite / leave the
entry and bump exactly one of the three counters. -/
def diffApply (st : BuilderState) (hash : String) (entry : ScriptEntry) : BuilderState :=
  match mapGet st.scripts hash with
  | none => { st with scripts := mapSet st.scripts hash entry, added := st.added + 1 }
  | some ex =>
    if entriesDiffer ex entry then
      { st with scripts := mapSet st.scripts hash entry, updated := st.updated + 1 }
    else
      { st with unchanged := st.unchanged + 1 }

/-- Per-script processing (lines 220-298): skip an empty hash,
lower-case the hash, resolve, count lookups and apply the diff. -/
def processScript (db : Option (String → DbResult)) (projectId : String)
    (st : BuilderState) (s : ProjectScript) : BuilderState × ProjectScript × Bool :=
  if s.scriptHash = "" then (st, s, false)
  else
    let hash := jsToLowerCase s.scriptHash
    let r := scriptStep db projectId (mapGet st.scripts hash) s
    (diffApply { st with lookupCount := st.lookupCount + r.lookups } hash r.entry,
     r.script, r.modified)

/-- The `for (const script of project.scripts)` loop, threading the
per-project `projectModified` flag and collecting the (possibly
back-propagated) script objects. -/
def processScriptList (db : Option (String → DbResult)) (projectId : String) :
    BuilderState → List ProjectScript → Bool → BuilderState × List ProjectScript × Bool
  | st, [], m => (st, [], m)
  | st, s :: rest, m =>
    let r := processScript db projectId st s
    let r' := processScriptList db projectId r.1 rest (m || r.2.2)
    (r'.1, r.2.1 :: r'.2.1, r'.2.2)

/-- Lines 207-213: upsert the project entry, logging `+ Project:` only
when the id is new.  `{ ...old, ...newProjectEntry }` equals
`newProjectEntry` because the object literal defines every field. -/
def upsertProject (st : BuilderState) (projectId : String) (npe : ProjectEntry) : BuilderState :=
  match mapGet st.projects projectId with
  | none =>
    { st with projects := mapSet st.projects projectId npe,
              projectEvents := st.projectEvents ++ [projectId] }
  | some _ => { st with projects := mapSet st.projects projectId npe }

/-- The `newProjectEntry` object literal (lines 200-205). -/
def newProjectEntry (l : String) (p : Project) : ProjectEntry :=
  ⟨l, jsOrDefault p.category "UNKNOWN", p.subCategory, p.linkWebsite⟩

/-- One iteration of the file loop (lines 184-307): skip a record with
no usable label, upsert the project entry, process the scripts, and
queue the record for a rewrite when it was modified. -/
def processProject (db : Option (String → DbResult))
    (st : BuilderState) (rec : String × Project) : BuilderState × (String × Project) :=
  match jsOrOpt rec.2.label rec.2.projectName with
  | none => (st, rec)
  | some l =>
    if l = "" then (st, rec)
    else
      let projectId := toKebabCase l
      let st1 := upsertProject st projectId (newProjectEntry l rec.2)
      let r := processScriptList db projectId st1 rec.2.scripts false
      let project' := { rec.2 with scripts := r.2.1 }
      let st2 :=
        if r.2.2 then { r.1 with filesToUpdate := mapSet r.1.filesToUpdate rec.1 project' }
        else r.1
      (st2, (rec.1, project'))

/-- The full file loop over `(filePath, record)` pairs, in directory
order. -/
def processRecords (db : Option (String → DbResult)) :
    BuilderState → List (String × Project) → BuilderState × List (String × Project)
  | st, [] => (st, [])
  | st, rec :: rest =>
    let r := processProject db st rec
    let r' := processRecords db r.1 rest
    (r'.1, r.2 :: r'.2)

/-- Lines 164-173: start from the existing index (or empty when absent
or unparseable) with zeroed counters. -/
def initState (existingIndex : Option ScriptIndex) : BuilderState :=
  { scripts := (existingIndex.map ScriptIndex.scripts).getD []
    projects := (existingIndex.map ScriptIndex.projects).getD []
    added := 0, updated := 0, unchanged := 0, lookupCount := 0
    projectEvents := [], filesToUpdate := [] }

/-- Everything one run produces in memory: the finalized index, the
summary counters, the staged back-propagation rewrites, the project
events, and the records as they stand after in-memory mutation. -/
structure RunResult where
  index : ScriptIndex
  added : Nat
  updated : Nat
  unchanged : Nat
  lookupCount : Nat
  filesToUpdate : List (String × Project)
  projectEvents : List String
  updatedRecords : List (String × Project)
deriving Repr, DecidableEq

/-- `generateScriptIndex` up to (but excluding) the Persistence Gate:
load, enumerate, merge, resolve, finalize (lines 146-342).  The
metadata counts are recomputed from the map sizes
(`Object.keys(...).length`, lines 324-332). -/
def runBuilder (db : Option (String → DbResult)) (existingIndex : Option ScriptIndex)
    (records : List (String × Project)) (now : String) : RunResult :=
  let r := processRecords db (initState existingIndex) records
  { index :=
      { metadata := ⟨now, r.1.scripts.length, r.1.projects.length⟩
        scripts := r.1.scripts
        projects := r.1.projects }
    added := r.1.added, updated := r.1.updated, unchanged := r.1.unchanged
    lookupCount := r.1.lookupCount
    filesToUpdate := r.1.filesToUpdate
    projectEvents := r.1.projectEvents
    updatedRecords := r.2 }

/-- A filesystem mutation performed by the Persistence Gate. -/
inductive WriteOp where
  | writeProjectFile : String → Project → WriteOp
  | writeIndexFile : ScriptIndex → WriteOp
deriving Repr, DecidableEq

/-- The Persistence Gate (lines 313-321 and 344-354): in dry-run mode
nothing is written; otherwise the staged project rewrites are committed
first and the index last. -/
def persist (dryRun : Bool) (r : RunResult) : List WriteOp :=
  if dryRun then []
  else (r.filesToUpdate.map fun fp => WriteOp.writeProjectFile fp.1 fp.2) ++
       [WriteOp.writeIndexFile r.index]

/-- The whole tool: compute the run, then let the Persistence Gate
decide what reaches the disk.  The summary (lines 334-342) is printed
from the `RunResult` in both modes. -/
def generateScriptIndex (dryRun : Bool) (db : Option (String → DbResult))
    (existingIndex : Option ScriptIndex) (records : List (String × Project))
    (now : String) : RunResult × List WriteOp :=
  let r := runBuilder db existingIndex records now
  (r, persist dryRun r)

/-! ## Key sets of a pass -/

/-- The normalized keys a list of scripts writes (scripts with an empty
hash are skipped, line 221). -/
def scriptKeys (ss : List ProjectScript) : List String :=
  (ss.filter fun s => s.scriptHash != "").map fun s => jsToLowerCase s.scriptHash

/-- The normalized keys one record may write. -/
def recordKeys (rec : String × Project) : List String := scriptKeys rec.2.scripts

/-- All normalized keys of a pass. -/
def allRecordKeys (recs : List (String × Project)) : List String :=
  (recs.map recordKeys).flatten

/-- The project entry a single record contributes under `pid`, when it
derives that id (skipped records and other ids contribute nothing). -/
def entryIfProject (rec : String × Project) (pid : String) : Option ProjectEntry :=
  match jsOrOpt rec.2.label rec.2.projectName with
  | none => none
  | some l =>
    if l = "" then none
    else if toKebabCase l = pid then some (newProjectEntry l rec.2) else none

/-- Modelled from the spec (§3, "last-write-wins, not merged
field-by-field"): the entry held after a run is the one contributed by
the last record deriving `pid`. -/
def specLastWriteWins : List (String × Project) → String → Option ProjectEntry
  | [], _ => none
  | rec :: rest, pid =>
    match specLastWriteWins rest pid with
    | some e => some e
    | none => entryIfProject rec pid

/-- Does some record of the pass derive `pid`? -/
def derivesPid (recs : List (String × Project)) (pid : String) : Bool :=
  recs.any fun rec => (entryIfProject rec pid).isSome

/-! ## Concrete records used for evaluation -/

def witnessScript : ProjectScript :=
  { name := "S1", scriptHash := "AABB", purpose := some "SPEND", type := none, plutusVersion := none }

def witnessProject : Project :=
  { label := some "Test App", projectName := none, category := some "DEFI",
    subCategory := none, linkWebsite := some "https://x", scripts := [witnessScript] }

/-- Two scripts of one project claiming the same hash with different
names. -/
def dupProject : Project :=
  { label := some "A", projectName := none, category := none, subCategory := none,
    linkWebsite := none,
    scripts := [{ name := "X", scriptHash := "ab", purpose := none, type := none, plutusVersion := none },
                { name := "Y", scriptHash := "ab", purpose := none, type := none, plutusVersion := none }] }

/-- A project whose single script carries a 112-hex-character hash. -/
def proj112 : Project :=
  { label := some "B", projectName := none, category := none, subCategory := none,
    linkWebsite := none,
    scripts := [{ name := "S", scriptHash := String.mk (List.replicate 112 'a'),
                  purpose := none, type := none, plutusVersion := none }] }

/-- A prior index holding one enriched entry under a key no current
record produces. -/
def witnessIndex : ScriptIndex :=
  { metadata := { generatedAt := "t", scriptCount := 1, projectCount := 0 }
    scripts := [("deadbeef", { projectId := "p", name := "Old", purpose := none,
                               type := some "PLUTUS", plutusVersion := some 1 })]
    projects := [] }

/-! ## Map lemmas -/

theorem mapGet_mapSet_self {α : Type} (m : List (String × α)) (k : String) (v : α) :
    mapGet (mapSet m k v) k = some v := by
  induction m with
  | nil => simp [mapSet, mapGet]
  | cons p rest ih =>
    obtain ⟨k', v'⟩ := p
    by_cases h : k' = k <;> simp [mapSet, mapGet, h, ih]

theorem mapGet_mapSet_ne {α : Type} (m : List (String × α)) (k k' : String) (v : α)
    (h : k' ≠ k) : mapGet (mapSet m k v) k' = mapGet m k' := by
  have h' : ¬ k = k' := fun e => h e.symm
  induction m with
  | nil => simp [mapSet, mapGet, h']
  | cons p rest ih =>
    obtain ⟨k0, v0⟩ := p
    by_cases h0 : k0 = k
    · subst h0
      simp [mapSet, mapGet, h']
    · simp only [mapSet, if_neg h0]
      by_cases h1 : k0 = k' <;> simp [mapGet, h1, ih]

theorem mapGet_eq_none_iff {α : Type} (m : List (String × α)) (k : String) :
    mapGet m k = none ↔ k ∉ m.map Prod.fst := by
  induction m with
  | nil => simp [mapGet]
  | cons p rest ih =>
    obtain ⟨k', v⟩ := p
    by_cases h : k' = k
    · subst h
      simp [mapGet]
    · have h' : ¬ k = k' := fun e => h e.symm
      simp [mapGet, h, h', ih]

theorem keys_mapSet {α : Type} (m : List (String × α)) (k : String) (v : α) :
    (mapSet m k v).map Prod.fst =
      if (mapGet m k).isNone then m.map Prod.fst ++ [k] else m.map Prod.fst := by
  induction m with
  | nil => simp [mapSet, mapGet]
  | cons p rest ih =>
    obtain ⟨k', v'⟩ := p
    by_cases h : k' = k
    · simp [mapSet, mapGet, h]
    · simp only [mapSet, if_neg h, mapGet, List.map_cons, ih]
      split <;> simp

theorem nodup_keys_mapSet {α : Type} (m : List (String × α)) (k : String) (v : α)
    (h : (m.map Prod.fst).Nodup) : ((mapSet m k v).map Prod.fst).Nodup := by
  rw [keys_mapSet]
  by_cases hnone : (mapGet m k).isNone
  · rw [if_pos hnone]
    refine List.Nodup.append h (List.nodup_singleton k) ?_
    have : k ∉ m.map Prod.fst :=
      (mapGet_eq_none_iff m k).mp (Option.isNone_iff_eq_none.mp hnone)
    simpa [List.disjoint_singleton] using this
  · rwa [if_neg hnone]

/-! ## Diff Tracker lemmas -/

theorem entriesDiffer_eq_false_iff (a b : ScriptEntry) : entriesDiffer a b = false ↔ a = b := by
  cases a; cases b
  simp [entriesDiffer, ScriptEntry.mk.injEq, and_assoc]

theorem diffApply_get_self (st : BuilderState) (hash : String) (e : ScriptEntry) :
    mapGet (diffApply st hash e).scripts hash = some e := by
  unfold diffApply
  split
  · simp [mapGet_mapSet_self]
  · rename_i ex hex
    split
    · simp [mapGet_mapSet_self]
    · rename_i hd
      have : ex = e := (entriesDiffer_eq_false_iff ex e).mp (by simpa using hd)
      simp [hex, this]

theorem diffApply_get_ne (st : BuilderState) (hash k : String) (e : ScriptEntry)
    (h : k ≠ hash) : mapGet (diffApply st hash e).scripts k = mapGet st.scripts k := by
  unfold diffApply
  split <;> [skip; split] <;> simp [mapGet_mapSet_ne _ _ _ _ h]

theorem diffApply_frame (st : BuilderState) (hash : String) (e : ScriptEntry) :
    (diffApply st hash e).projects = st.projects ∧
    (diffApply st hash e).lookupCount = st.lookupCount ∧
    (diffApply st hash e).projectEvents = st.projectEvents ∧
    (diffApply st hash e).filesToUpdate = st.filesToUpdate := by
  unfold diffApply
  split <;> [skip; split] <;> simp

theorem diffApply_counts (st : BuilderState) (hash : String) (e : ScriptEntry) :
    (diffApply st hash e).added + (diffApply st hash e).updated + (diffApply st hash e).unchanged
      = st.added + st.updated + st.unchanged + 1 := by
  unfold diffApply
  split <;> [skip; split] <;> simp <;> omega

theorem diffApply_nodup (st : BuilderState) (hash : String) (e : ScriptEntry)
    (h : (st.scripts.map Prod.fst).Nodup) :
    ((diffApply st hash e).scripts.map Prod.fst).Nodup := by
  unfold diffApply
  split <;> [skip; split] <;> simp [nodup_keys_mapSet _ _ _ h, h]

/-! ## Resolver (`scriptStep`) characterizations -/

theorem lookupScriptInfo_type (db : Option (String → DbResult)) (h : String)
    (i : ScriptInfo) (H : lookupScriptInfo db h = some i) :
    i.type = "NATIVE" ∨ i.type = "PLUTUS" := by
  rcases db with _ | q
  · simp [lookupScriptInfo] at H
  · simp only [lookupScriptInfo] at H
    split at H
    · simp at H
    · simp at H
    · split at H
      · left; cases H; rfl
      · split at H
        · right; cases H; rfl
        · simp at H

theorem scriptStep_shortcircuit (db : Option (String → DbResult)) (pid : String)
    (ex : Option ScriptEntry) (s : ProjectScript)
    (hT : strFalsy s.type = false) (hP : s.plutusVersion.isSome = true) :
    scriptStep db pid ex s = ⟨⟨pid, s.name, s.purpose, s.type, s.plutusVersion⟩, s, false, 0⟩ := by
  unfold scriptStep
  have : (strFalsy s.type || s.plutusVersion.isNone) = false := by
    cases hv : s.plutusVersion with
    | none => rw [hv] at hP; simp at hP
    | some v => simp [hT, hv]
  simp [this]

theorem scriptStep_copy (db : Option (String → DbResult)) (pid : String)
    (e : ScriptEntry) (s : ProjectScript)
    (h1 : (strFalsy s.type || s.plutusVersion.isNone) = true)
    (hT : strFalsy e.type = false) (hP : e.plutusVersion.isSome = true) :
    scriptStep db pid (some e) s = copyFromIndex pid s e.type e.plutusVersion := by
  unfold scriptStep
  simp [h1, hT, hP]

theorem scriptStep_to_db_none (db : Option (String → DbResult)) (pid : String)
    (s : ProjectScript) (h1 : (strFalsy s.type || s.plutusVersion.isNone) = true) :
    scriptStep db pid none s = dbStep db pid s := by
  unfold scriptStep
  simp [h1]

theorem scriptStep_to_db_some (db : Option (String → DbResult)) (pid : String)
    (e : ScriptEntry) (s : ProjectScript)
    (h1 : (strFalsy s.type || s.plutusVersion.isNone) = true)
    (h2 : (!(strFalsy e.type) && e.plutusVersion.isSome) = false) :
    scriptStep db pid (some e) s = dbStep db pid s := by
  unfold scriptStep
  simp only [h1, if_true, h2]
  simp

theorem copyFromIndex_eq (pid : String) (s : ProjectScript)
    (exT : Option String) (exP : Option Nat)
    (hT : strFalsy exT = false) (hP : exP.isSome = true) :
    copyFromIndex pid s exT exP =
      ⟨⟨pid, s.name, s.purpose, jsOrOpt s.type exT,
         if s.plutusVersion.isNone then exP else s.plutusVersion⟩,
       { s with type := jsOrOpt s.type exT,
                plutusVersion := if s.plutusVersion.isNone then exP else s.plutusVersion },
       strFalsy s.type || s.plutusVersion.isNone, 0⟩ := by
  obtain ⟨nm, hsh, pur, ty, pv⟩ := s
  unfold copyFromIndex jsOrOpt
  by_cases h1 : strFalsy ty = true <;> by_cases h2 : pv.isNone = true <;>
    simp_all [hT, hP]

theorem dbStep_none_eq (pid : String) (s : ProjectScript) :
    dbStep none pid s = ⟨⟨pid, s.name, s.purpose, s.type, s.plutusVersion⟩, s, false, 0⟩ := rfl

theorem dbStep_miss (q : String → DbResult) (pid : String) (s : ProjectScript)
    (h : lookupScriptInfo (some q) (jsToLowerCase s.scriptHash) = none) :
    dbStep (some q) pid s = ⟨⟨pid, s.name, s.purpose, s.type, s.plutusVersion⟩, s, false, 1⟩ := by
  unfold dbStep
  simp [h]

theorem dbStep_preserves (db : Option (String → DbResult)) (pid : String) (s : ProjectScript) :
    (dbStep db pid s).script.name = s.name ∧
    (dbStep db pid s).script.scriptHash = s.scriptHash ∧
    (dbStep db pid s).script.purpose = s.purpose := by
  obtain ⟨nm, hsh, pur, ty, pv⟩ := s
  unfold dbStep
  rcases db with _ | q
  · simp
  · rcases hlk : lookupScriptInfo (some q) (jsToLowerCase hsh) with _ | info
    · simp [hlk]
    · by_cases h1 : strFalsy ty = true <;> by_cases h2 : pv.isNone = true <;>
        simp_all [hlk] <;> split <;> simp

theorem scriptStep_preserves (db : Option (String → DbResult)) (pid : String)
    (ex : Option ScriptEntry) (s : ProjectScript) :
    (scriptStep db pid ex s).script.name = s.name ∧
    (scriptStep db pid ex s).script.scriptHash = s.scriptHash ∧
    (scriptStep db pid ex s).script.purpose = s.purpose := by
  unfold scriptStep
  split
  · split
    · split
      · rename_i e _ hT
        obtain ⟨nm, hsh, pur, ty, pv⟩ := s
        unfold copyFromIndex
        by_cases h1 : strFalsy ty = true <;> by_cases h2 : pv.isNone = true <;>
          simp_all
      · exact dbStep_preserves db pid s
    · exact dbStep_preserves db pid s
  · simp

theorem dbStep_hit (q : String → DbResult) (pid : String) (s : ProjectScript)
    (info : ScriptInfo)
    (h : lookupScriptInfo (some q) (jsToLowerCase s.scriptHash) = some info)
    (hne : info.type ≠ "") :
    dbStep (some q) pid s =
      ⟨⟨pid, s.name, s.purpose, jsOrOpt s.type (some info.type),
         if s.plutusVersion.isNone then some info.plutusVersion else s.plutusVersion⟩,
       { s with type := jsOrOpt s.type (some info.type),
                plutusVersion := if s.plutusVersion.isNone then some info.plutusVersion
                                 else s.plutusVersion },
       strFalsy s.type || s.plutusVersion.isNone, 1⟩ := by
  obtain ⟨nm, hsh, pur, ty, pv⟩ := s
  unfold dbStep jsOrOpt
  simp only [h]
  have hne' : (info.type != "") = true := by simpa using hne
  by_cases h1 : strFalsy ty = true <;> by_cases h2 : pv.isNone = true <;>
    simp_all [hne']

/-- Run-2 behaviour of the db-sync fallback path: feeding the produced
entry and the back-propagated script through the Resolver again
reproduces the same entry (the oracle is deterministic, so a miss stays
a miss and a hit has already been written into the script). -/
theorem dbStep_idem_entry (db : Option (String → DbResult)) (pid : String) (s : ProjectScript)
    (h1 : (strFalsy s.type || s.plutusVersion.isNone) = true) :
    (scriptStep db pid (some (dbStep db pid s).entry) (dbStep db pid s).script).entry
      = (dbStep db pid s).entry := by
  have hinner : (!(strFalsy s.type) && s.plutusVersion.isSome) = false := by
    cases ha : strFalsy s.type with
    | true => simp
    | false =>
      cases hb : s.plutusVersion.isNone with
      | false => rw [ha, hb] at h1; simp at h1
      | true =>
        cases hv : s.plutusVersion with
        | none => simp
        | some v => rw [hv] at hb; simp at hb
  rcases db with _ | q
  · rw [dbStep_none_eq]
    rw [scriptStep_to_db_some none pid _ s h1 hinner, dbStep_none_eq]
  · rcases hlk : lookupScriptInfo (some q) (jsToLowerCase s.scriptHash) with _ | info
    · rw [dbStep_miss q pid s hlk]
      rw [scriptStep_to_db_some (some q) pid _ s h1 hinner, dbStep_miss q pid s hlk]
    · have hne : info.type ≠ "" := by
        rcases lookupScriptInfo_type _ _ _ hlk with h | h <;> simp [h]
      rw [dbStep_hit q pid s info hlk hne]
      set T := jsOrOpt s.type (some info.type) with hT
      set P := if s.plutusVersion.isNone then some info.plutusVersion else s.plutusVersion with hP
      have hTf : strFalsy T = false := by
        rw [hT, jsOrOpt]
        cases hy : strFalsy s.type with
        | true =>
          simp only [if_true]
          simpa [strFalsy] using hne
        | false => simpa using hy
      have hPs : P.isSome = true := by
        rw [hP]
        cases hv : s.plutusVersion.isNone with
        | true => simp
        | false =>
          cases hvv : s.plutusVersion with
          | none => rw [hvv] at hv; simp at hv
          | some v => simp
      have := scriptStep_shortcircuit (some q) pid
        (some (⟨pid, s.name, s.purpose, T, P⟩ : ScriptEntry))
        { s with type := T, plutusVersion := P } hTf hPs
      rw [this]

/-- Feeding the Resolver its own output — the produced index entry as
the existing entry, the back-propagated script as the incoming record —
reproduces the same candidate entry.  This is the core of merge
idempotence. -/
theorem scriptStep_idem (db : Option (String → DbResult)) (pid : String)
    (ex : Option ScriptEntry) (s : ProjectScript) :
    (scriptStep db pid (some (scriptStep db pid ex s).entry) (scriptStep db pid ex s).script).entry
      = (scriptStep db pid ex s).entry := by
  by_cases h1 : (strFalsy s.type || s.plutusVersion.isNone) = true
  · rcases ex with _ | e
    · rw [scriptStep_to_db_none db pid s h1]
      exact dbStep_idem_entry db pid s h1
    · by_cases hboth : (!(strFalsy e.type) && e.plutusVersion.isSome) = true
      · have hT : strFalsy e.type = false := by
          cases ha : strFalsy e.type with
          | false => rfl
          | true => rw [ha] at hboth; simp at hboth
        have hP : e.plutusVersion.isSome = true := by
          cases hb : e.plutusVersion.isSome with
          | true => rfl
          | false => rw [hb] at hboth; simp at hboth
        rw [scriptStep_copy db pid e s h1 hT hP, copyFromIndex_eq pid s e.type e.plutusVersion hT hP]
        set T := jsOrOpt s.type e.type with hTdef
        set P := if s.plutusVersion.isNone then e.plutusVersion else s.plutusVersion with hPdef
        have hTf : strFalsy T = false := by
          rw [hTdef, jsOrOpt]
          cases hy : strFalsy s.type with
          | true => simpa using hT
          | false => simpa using hy
        have hPs : P.isSome = true := by
          rw [hPdef]
          cases hv : s.plutusVersion.isNone with
          | true => simpa using hP
          | false =>
            cases hvv : s.plutusVersion with
            | none => rw [hvv] at hv; simp at hv
            | some v => simp
        have := scriptStep_shortcircuit db pid
          (some (⟨pid, s.name, s.purpose, T, P⟩ : ScriptEntry))
          { s with type := T, plutusVersion := P } hTf hPs
        rw [this]
      · have hboth' : (!(strFalsy e.type) && e.plutusVersion.isSome) = false := by
          cases hx : (!(strFalsy e.type) && e.plutusVersion.isSome) with
          | false => rfl
          | true => exact absurd hx hboth
        rw [scriptStep_to_db_some db pid e s h1 hboth']
        exact dbStep_idem_entry db pid s h1
  · have hT : strFalsy s.type = false := by
      cases ha : strFalsy s.type with
      | false => rfl
      | true => exact absurd (by rw [ha]; simp) h1
    have hPn : s.plutusVersion.isNone = false := by
      cases hb : s.plutusVersion.isNone with
      | false => rfl
      | true => exact absurd (by rw [hb]; simp) h1
    have hP : s.plutusVersion.isSome = true := by
      cases hv : s.plutusVersion with
      | none => rw [hv] at hPn; simp at hPn
      | some v => simp
    rw [scriptStep_shortcircuit db pid ex s hT hP]
    rw [scriptStep_shortcircuit db pid _ s hT hP]

/-! ## Per-script and per-list processing lemmas -/

theorem processScript_empty (db : Option (String → DbResult)) (pid : String)
    (st : BuilderState) (s : ProjectScript) (h : s.scriptHash = "") :
    processScript db pid st s = (st, s, false) := by
  simp only [processScript, if_pos h]

theorem processScript_ne (db : Option (String → DbResult)) (pid : String)
    (st : BuilderState) (s : ProjectScript) (h : ¬ s.scriptHash = "") :
    processScript db pid st s =
      (diffApply
        { st with lookupCount := st.lookupCount +
            (scriptStep db pid (mapGet st.scripts (jsToLowerCase s.scriptHash)) s).lookups }
        (jsToLowerCase s.scriptHash)
        (scriptStep db pid (mapGet st.scripts (jsToLowerCase s.scriptHash)) s).entry,
       (scriptStep db pid (mapGet st.scripts (jsToLowerCase s.scriptHash)) s).script,
       (scriptStep db pid (mapGet st.scripts (jsToLowerCase s.scriptHash)) s).modified) := by
  simp only [processScript, if_neg h]

theorem processScript_frame (db : Option (String → DbResult)) (pid : String)
    (st : BuilderState) (s : ProjectScript) :
    (processScript db pid st s).1.projects = st.projects ∧
    (processScript db pid st s).1.projectEvents = st.projectEvents ∧
    (processScript db pid st s).1.filesToUpdate = st.filesToUpdate := by
  by_cases h : s.scriptHash = ""
  · rw [processScript_empty db pid st s h]
    exact ⟨rfl, rfl, rfl⟩
  · rw [processScript_ne db pid st s h]
    have hd := diffApply_frame
      { st with lookupCount := st.lookupCount +
          (scriptStep db pid (mapGet st.scripts (jsToLowerCase s.scriptHash)) s).lookups }
      (jsToLowerCase s.scriptHash)
      (scriptStep db pid (mapGet st.scripts (jsToLowerCase s.scriptHash)) s).entry
    exact ⟨hd.1, hd.2.2.1, hd.2.2.2⟩

theorem processScript_get (db : Option (String → DbResult)) (pid : String)
    (st : BuilderState) (s : ProjectScript) (k : String) :
    mapGet (processScript db pid st s).1.scripts k =
      if ¬ s.scriptHash = "" ∧ k = jsToLowerCase s.scriptHash
      then some (scriptStep db pid (mapGet st.scripts (jsToLowerCase s.scriptHash)) s).entry
      else mapGet st.scripts k := by
  by_cases h : s.scriptHash = ""
  · rw [processScript_empty db pid st s h, if_neg (by simp [h])]
  · rw [processScript_ne db pid st s h]
    by_cases hk : k = jsToLowerCase s.scriptHash
    · rw [if_pos ⟨h, hk⟩]
      subst hk
      exact diffApply_get_self _ _ _
    · rw [if_neg (by simp [hk])]
      exact diffApply_get_ne _ _ _ _ hk

theorem processScript_nodup (db : Option (String → DbResult)) (pid : String)
    (st : BuilderState) (s : ProjectScript)
    (h : (st.scripts.map Prod.fst).Nodup) :
    ((processScript db pid st s).1.scripts.map Prod.fst).Nodup := by
  by_cases hh : s.scriptHash = ""
  · rw [processScript_empty db pid st s hh]; exact h
  · rw [processScript_ne db pid st s hh]
    exact diffApply_nodup _ _ _ h

theorem scriptKeys_cons (s : ProjectScript) (rest : List ProjectScript) :
    scriptKeys (s :: rest) =
      if s.scriptHash != "" then jsToLowerCase s.scriptHash :: scriptKeys rest
      else scriptKeys rest := by
  simp only [scriptKeys, List.filter_cons]
  split <;> simp

theorem processScriptList_frame (db : Option (String → DbResult)) (pid : String) :
    ∀ (ss : List ProjectScript) (st : BuilderState) (m : Bool),
    (processScriptList db pid st ss m).1.projects = st.projects ∧
    (processScriptList db pid st ss m).1.projectEvents = st.projectEvents ∧
    (processScriptList db pid st ss m).1.filesToUpdate = st.filesToUpdate := by
  intro ss
  induction ss with
  | nil => intro st m; exact ⟨rfl, rfl, rfl⟩
  | cons s rest ih =>
    intro st m
    simp only [processScriptList]
    have h1 := processScript_frame db pid st s
    have h2 := ih (processScript db pid st s).1 (m || (processScript db pid st s).2.2)
    exact ⟨h2.1.trans h1.1, h2.2.1.trans h1.2.1, h2.2.2.trans h1.2.2⟩

theorem processScriptList_get_ne (db : Option (String → DbResult)) (pid : String) :
    ∀ (ss : List ProjectScript) (st : BuilderState) (m : Bool) (k : String),
    k ∉ scriptKeys ss →
    mapGet (processScriptList db pid st ss m).1.scripts k = mapGet st.scripts k := by
  intro ss
  induction ss with
  | nil => intro st m k _; rfl
  | cons s rest ih =>
    intro st m k hk
    rw [scriptKeys_cons] at hk
    simp only [processScriptList]
    have hrest : k ∉ scriptKeys rest := by
      intro hmem; apply hk; split <;> simp [hmem]
    have hhead : mapGet (processScript db pid st s).1.scripts k = mapGet st.scripts k := by
      rw [processScript_get]
      split
      · rename_i hsplit
        exfalso
        apply hk
        have : (s.scriptHash != "") = true := by simpa using hsplit.1
        rw [if_pos this]
        exact hsplit.2 ▸ List.mem_cons_self _ _
      · rfl
    rw [ih _ _ _ hrest, hhead]

theorem processScriptList_nodup (db : Option (String → DbResult)) (pid : String) :
    ∀ (ss : List ProjectScript) (st : BuilderState) (m : Bool),
    (st.scripts.map Prod.fst).Nodup →
    ((processScriptList db pid st ss m).1.scripts.map Prod.fst).Nodup := by
  intro ss
  induction ss with
  | nil => intro st m h; exact h
  | cons s rest ih =>
    intro st m h
    simp only [processScriptList]
    exact ih _ _ (processScript_nodup db pid st s h)

/-! ## Per-project processing lemmas -/

theorem upsertProject_frame (st : BuilderState) (pid : String) (npe : ProjectEntry) :
    (upsertProject st pid npe).scripts = st.scripts ∧
    (upsertProject st pid npe).added = st.added ∧
    (upsertProject st pid npe).updated = st.updated ∧
    (upsertProject st pid npe).unchanged = st.unchanged ∧
    (upsertProject st pid npe).lookupCount = st.lookupCount ∧
    (upsertProject st pid npe).filesToUpdate = st.filesToUpdate := by
  unfold upsertProject
  split <;> exact ⟨rfl, rfl, rfl, rfl, rfl, rfl⟩

theorem upsertProject_projects_get (st : BuilderState) (pid : String) (npe : ProjectEntry)
    (k : String) :
    mapGet (upsertProject st pid npe).projects k =
      if k = pid then some npe else mapGet st.projects k := by
  unfold upsertProject
  by_cases hk : k = pid
  · subst hk
    split <;> simp [mapGet_mapSet_self]
  · split <;> simp [mapGet_mapSet_ne _ _ _ _ hk, hk]

theorem upsertProject_events (st : BuilderState) (pid : String) (npe : ProjectEntry) :
    (upsertProject st pid npe).projectEvents =
      if (mapGet st.projects pid).isNone then st.projectEvents ++ [pid]
      else st.projectEvents := by
  unfold upsertProject
  split <;> rename_i heq <;> simp [heq]

theorem upsertProject_nodup (st : BuilderState) (pid : String) (npe : ProjectEntry)
    (h : (st.projects.map Prod.fst).Nodup) :
    ((upsertProject st pid npe).projects.map Prod.fst).Nodup := by
  unfold upsertProject
  split <;> exact nodup_keys_mapSet _ _ _ h

theorem processProject_skip (db : Option (String → DbResult)) (st : BuilderState)
    (rec : String × Project) (h : strFalsy (jsOrOpt rec.2.label rec.2.projectName) = true) :
    processProject db st rec = (st, rec) := by
  unfold processProject
  cases hl : jsOrOpt rec.2.label rec.2.projectName with
  | none => rfl
  | some l =>
    rw [hl] at h
    have : l = "" := by simpa [strFalsy] using h
    simp [this]

/-- The optional `filesToUpdate` staging at the end of a project
iteration never touches the other state fields. -/
theorem stageFile_frame (r1 : BuilderState) (c : Bool) (p : String) (proj : Project) :
    (if c then { r1 with filesToUpdate := mapSet r1.filesToUpdate p proj } else r1).scripts
        = r1.scripts ∧
    (if c then { r1 with filesToUpdate := mapSet r1.filesToUpdate p proj } else r1).projects
        = r1.projects ∧
    (if c then { r1 with filesToUpdate := mapSet r1.filesToUpdate p proj } else r1).added
        = r1.added ∧
    (if c then { r1 with filesToUpdate := mapSet r1.filesToUpdate p proj } else r1).updated
        = r1.updated ∧
    (if c then { r1 with filesToUpdate := mapSet r1.filesToUpdate p proj } else r1).unchanged
        = r1.unchanged ∧
    (if c then { r1 with filesToUpdate := mapSet r1.filesToUpdate p proj } else r1).projectEvents
        = r1.projectEvents := by
  cases c <;> exact ⟨rfl, rfl, rfl, rfl, rfl, rfl⟩

theorem processProject_get_ne (db : Option (String → DbResult)) (st : BuilderState)
    (rec : String × Project) (k : String) (hk : k ∉ recordKeys rec) :
    mapGet (processProject db st rec).1.scripts k = mapGet st.scripts k := by
  by_cases h : strFalsy (jsOrOpt rec.2.label rec.2.projectName) = true
  · rw [processProject_skip db st rec h]
  · cases hl : jsOrOpt rec.2.label rec.2.projectName with
    | none => rw [hl] at h; simp [strFalsy] at h
    | some l =>
      have hne : ¬ l = "" := by
        intro e; rw [hl, e] at h; simp [strFalsy] at h
      simp only [processProject, hl, if_neg hne]
      rw [(stageFile_frame _ _ _ _).1]
      rw [processScriptList_get_ne db (toKebabCase l) rec.2.scripts _ false k hk]
      rw [(upsertProject_frame st (toKebabCase l) (newProjectEntry l rec.2)).1]

theorem processProject_nodup (db : Option (String → DbResult)) (st : BuilderState)
    (rec : String × Project)
    (hs : (st.scripts.map Prod.fst).Nodup) (hp : (st.projects.map Prod.fst).Nodup) :
    ((processProject db st rec).1.scripts.map Prod.fst).Nodup ∧
    ((processProject db st rec).1.projects.map Prod.fst).Nodup := by
  by_cases h : strFalsy (jsOrOpt rec.2.label rec.2.projectName) = true
  · rw [processProject_skip db st rec h]; exact ⟨hs, hp⟩
  · cases hl : jsOrOpt rec.2.label rec.2.projectName with
    | none => rw [hl] at h; simp [strFalsy] at h
    | some l =>
      have hne : ¬ l = "" := by
        intro e; rw [hl, e] at h; simp [strFalsy] at h
      simp only [processProject, hl, if_neg hne]
      constructor
      · rw [(stageFile_frame _ _ _ _).1]
        apply processScriptList_nodup
        rw [(upsertProject_frame st (toKebabCase l) (newProjectEntry l rec.2)).1]
        exact hs
      · rw [(stageFile_frame _ _ _ _).2.1]
        rw [(processScriptList_frame db (toKebabCase l) rec.2.scripts _ false).1]
        exact upsertProject_nodup _ _ _ hp

theorem processProject_rec (db : Option (String → DbResult)) (st : BuilderState)
    (rec : String × Project) :
    (processProject db st rec).2.1 = rec.1 ∧
    (processProject db st rec).2.2.label = rec.2.label ∧
    (processProject db st rec).2.2.projectName = rec.2.projectName ∧
    (processProject db st rec).2.2.category = rec.2.category ∧
    (processProject db st rec).2.2.subCategory = rec.2.subCategory ∧
    (processProject db st rec).2.2.linkWebsite = rec.2.linkWebsite := by
  by_cases h : strFalsy (jsOrOpt rec.2.label rec.2.projectName) = true
  · rw [processProject_skip db st rec h]
    exact ⟨rfl, rfl, rfl, rfl, rfl, rfl⟩
  · cases hl : jsOrOpt rec.2.label rec.2.projectName with
    | none => rw [hl] at h; simp [strFalsy] at h
    | some l =>
      have hne : ¬ l = "" := by
        intro e; rw [hl, e] at h; simp [strFalsy] at h
      simp only [processProject, hl, if_neg hne]
      simp

/-! ## Second-run no-op lemmas -/

theorem diffApply_unchanged (st : BuilderState) (hash : String) (e : ScriptEntry)
    (h : mapGet st.scripts hash = some e) :
    diffApply st hash e = { st with unchanged := st.unchanged + 1 } := by
  have hdif : entriesDiffer e e = false := (entriesDiffer_eq_false_iff e e).mpr rfl
  unfold diffApply
  simp only [h, hdif]
  simp

/-- Processing a script a second time, against a state whose map
already holds exactly the entry the first pass produced, touches
neither the scripts map nor the added/updated counters, and hands back
the same script object. -/
theorem processScript_second (db : Option (String → DbResult)) (pid : String)
    (st1 st2 : BuilderState) (s : ProjectScript) (hne : ¬ s.scriptHash = "")
    (hagree : mapGet st2.scripts (jsToLowerCase s.scriptHash) =
      some (scriptStep db pid (mapGet st1.scripts (jsToLowerCase s.scriptHash)) s).entry) :
    (processScript db pid st2 (processScript db pid st1 s).2.1).1.scripts = st2.scripts ∧
    (processScript db pid st2 (processScript db pid st1 s).2.1).1.added = st2.added ∧
    (processScript db pid st2 (processScript db pid st1 s).2.1).1.updated = st2.updated := by
  have hscr : (processScript db pid st1 s).2.1 =
      (scriptStep db pid (mapGet st1.scripts (jsToLowerCase s.scriptHash)) s).script := by
    rw [processScript_ne db pid st1 s hne]
  set r1 := scriptStep db pid (mapGet st1.scripts (jsToLowerCase s.scriptHash)) s with hr1
  have hpres := scriptStep_preserves db pid (mapGet st1.scripts (jsToLowerCase s.scriptHash)) s
  have hh : r1.script.scriptHash = s.scriptHash := hpres.2.1
  have hne' : ¬ r1.script.scriptHash = "" := by rw [hh]; exact hne
  rw [hscr, processScript_ne db pid st2 r1.script hne', hh]
  rw [hagree]
  have hidem := scriptStep_idem db pid (mapGet st1.scripts (jsToLowerCase s.scriptHash)) s
  rw [← hr1] at hidem
  rw [hidem]
  rw [diffApply_unchanged _ _ _ (by rw [hagree])]
  exact ⟨rfl, rfl, rfl⟩

theorem processScriptList_second (db : Option (String → DbResult)) (pid : String) :
    ∀ (ss : List ProjectScript) (st1 st2 : BuilderState) (m1 m2 : Bool),
    (scriptKeys ss).Nodup →
    (∀ k, k ∈ scriptKeys ss →
      mapGet st2.scripts k = mapGet (processScriptList db pid st1 ss m1).1.scripts k) →
    (processScriptList db pid st2 (processScriptList db pid st1 ss m1).2.1 m2).1.scripts
        = st2.scripts ∧
    (processScriptList db pid st2 (processScriptList db pid st1 ss m1).2.1 m2).1.added
        = st2.added ∧
    (processScriptList db pid st2 (processScriptList db pid st1 ss m1).2.1 m2).1.updated
        = st2.updated := by
  intro ss
  induction ss with
  | nil =>
    intro st1 st2 m1 m2 _ _
    exact ⟨rfl, rfl, rfl⟩
  | cons s rest ih =>
    intro st1 st2 m1 m2 hnd hagree
    by_cases hh : s.scriptHash = ""
    · have hkeys : scriptKeys (s :: rest) = scriptKeys rest := by
        rw [scriptKeys_cons, if_neg (by simp [hh])]
      rw [hkeys] at hnd hagree
      have hagree' : ∀ k ∈ scriptKeys rest,
          mapGet st2.scripts k =
            mapGet (processScriptList db pid st1 rest (m1 || false)).1.scripts k := by
        intro k hk
        rw [hagree k hk]
        simp only [processScriptList, processScript_empty db pid st1 s hh]
      have hres := ih st1 st2 (m1 || false) (m2 || false) hnd hagree'
      simp only [processScriptList, processScript_empty db pid st1 s hh,
        processScript_empty db pid st2 s hh]
      exact hres
    · have hkeys : scriptKeys (s :: rest) = jsToLowerCase s.scriptHash :: scriptKeys rest := by
        rw [scriptKeys_cons, if_pos (by simp [hh])]
      rw [hkeys] at hnd hagree
      have hknotin : jsToLowerCase s.scriptHash ∉ scriptKeys rest :=
        (List.nodup_cons.mp hnd).1
      have hndrest : (scriptKeys rest).Nodup := (List.nodup_cons.mp hnd).2
      -- the run-1 final value at the head key is the head entry
      have hrun1k : mapGet (processScriptList db pid st1 (s :: rest) m1).1.scripts
          (jsToLowerCase s.scriptHash) =
          some (scriptStep db pid (mapGet st1.scripts (jsToLowerCase s.scriptHash)) s).entry := by
        simp only [processScriptList]
        rw [processScriptList_get_ne db pid rest _ _ _ hknotin]
        rw [processScript_get]
        rw [if_pos ⟨hh, rfl⟩]
      have hagreehead : mapGet st2.scripts (jsToLowerCase s.scriptHash) =
          some (scriptStep db pid (mapGet st1.scripts (jsToLowerCase s.scriptHash)) s).entry := by
        rw [hagree (jsToLowerCase s.scriptHash) (List.mem_cons_self _ _), hrun1k]
      have hsec := processScript_second db pid st1 st2 s hh hagreehead
      simp only [processScriptList]
      have hrest := ih (processScript db pid st1 s).1
        (processScript db pid st2 (processScript db pid st1 s).2.1).1
        (m1 || (processScript db pid st1 s).2.2)
        (m2 || (processScript db pid st2 (processScript db pid st1 s).2.1).2.2)
        hndrest ?_
      · refine ⟨hrest.1.trans hsec.1, hrest.2.1.trans hsec.2.1, hrest.2.2.trans hsec.2.2⟩
      · intro k hk
        rw [hsec.1]
        have := hagree k (List.mem_cons_of_mem _ hk)
        rw [this]
        simp only [processScriptList]

theorem processProject_second (db : Option (String → DbResult))
    (st1 st2 : BuilderState) (rec : String × Project)
    (hnd : (recordKeys rec).Nodup)
    (hagree : ∀ k, k ∈ recordKeys rec →
      mapGet st2.scripts k = mapGet (processProject db st1 rec).1.scripts k) :
    (processProject db st2 (processProject db st1 rec).2).1.scripts = st2.scripts ∧
    (processProject db st2 (processProject db st1 rec).2).1.added = st2.added ∧
    (processProject db st2 (processProject db st1 rec).2).1.updated = st2.updated := by
  by_cases h : strFalsy (jsOrOpt rec.2.label rec.2.projectName) = true
  · rw [processProject_skip db st1 rec h, processProject_skip db st2 rec h]
    exact ⟨rfl, rfl, rfl⟩
  · cases hl : jsOrOpt rec.2.label rec.2.projectName with
    | none => rw [hl] at h; simp [strFalsy] at h
    | some l =>
      have hne : ¬ l = "" := by
        intro e; rw [hl, e] at h; simp [strFalsy] at h
      simp only [processProject, hl, if_neg hne] at hagree ⊢
      have hsl := processScriptList_second db (toKebabCase l) rec.2.scripts
        (upsertProject st1 (toKebabCase l) (newProjectEntry l rec.2))
        (upsertProject st2 (toKebabCase l) (newProjectEntry l rec.2))
        false false hnd ?_
      · refine ⟨?_, ?_, ?_⟩
        · rw [(stageFile_frame _ _ _ _).1]
          exact hsl.1.trans (upsertProject_frame st2 _ _).1
        · rw [(stageFile_frame _ _ _ _).2.2.1]
          exact hsl.2.1.trans (upsertProject_frame st2 _ _).2.1
        · rw [(stageFile_frame _ _ _ _).2.2.2.1]
          exact hsl.2.2.trans (upsertProject_frame st2 _ _).2.2.1
      · intro k hk
        rw [(upsertProject_frame st2 (toKebabCase l) (newProjectEntry l rec.2)).1]
        rw [hagree k hk]
        rw [(stageFile_frame _ _ _ _).1]

theorem allRecordKeys_cons (rec : String × Project) (rest : List (String × Project)) :
    allRecordKeys (rec :: rest) = recordKeys rec ++ allRecordKeys rest := by
  simp [allRecordKeys]

theorem processRecords_get_ne (db : Option (String → DbResult)) :
    ∀ (recs : List (String × Project)) (st : BuilderState) (k : String),
    k ∉ allRecordKeys recs →
    mapGet (processRecords db st recs).1.scripts k = mapGet st.scripts k := by
  intro recs
  induction recs with
  | nil => intro st k _; rfl
  | cons rec rest ih =>
    intro st k hk
    rw [allRecordKeys_cons] at hk
    simp only [List.mem_append] at hk
    push_neg at hk
    simp only [processRecords]
    rw [ih _ _ hk.2, processProject_get_ne db st rec k hk.1]

theorem processRecords_nodup (db : Option (String → DbResult)) :
    ∀ (recs : List (String × Project)) (st : BuilderState),
    (st.scripts.map Prod.fst).Nodup → (st.projects.map Prod.fst).Nodup →
    ((processRecords db st recs).1.scripts.map Prod.fst).Nodup ∧
    ((processRecords db st recs).1.projects.map Prod.fst).Nodup := by
  intro recs
  induction recs with
  | nil => intro st hs hp; exact ⟨hs, hp⟩
  | cons rec rest ih =>
    intro st hs hp
    simp only [processRecords]
    have h1 := processProject_nodup db st rec hs hp
    exact ih _ h1.1 h1.2

/-! ## Second run over all records -/

theorem processRecords_second (db : Option (String → DbResult)) :
    ∀ (recs : List (String × Project)) (st1 st2 : BuilderState),
    (allRecordKeys recs).Nodup →
    (∀ k, k ∈ allRecordKeys recs →
      mapGet st2.scripts k = mapGet (processRecords db st1 recs).1.scripts k) →
    (processRecords db st2 (processRecords db st1 recs).2).1.scripts = st2.scripts ∧
    (processRecords db st2 (processRecords db st1 recs).2).1.added = st2.added ∧
    (processRecords db st2 (processRecords db st1 recs).2).1.updated = st2.updated := by
  intro recs
  induction recs with
  | nil =>
    intro st1 st2 _ _
    exact ⟨rfl, rfl, rfl⟩
  | cons rec rest ih =>
    intro st1 st2 hnd hagree
    rw [allRecordKeys_cons] at hnd hagree
    obtain ⟨hndhead, hndrest, hdisj⟩ := List.nodup_append.mp hnd
    have hagreehead : ∀ k, k ∈ recordKeys rec →
        mapGet st2.scripts k = mapGet (processProject db st1 rec).1.scripts k := by
      intro k hk
      rw [hagree k (List.mem_append_left _ hk)]
      simp only [processRecords]
      exact processRecords_get_ne db rest _ k (hdisj hk)
    have hsec := processProject_second db st1 st2 rec hndhead hagreehead
    have hrest := ih (processProject db st1 rec).1
      (processProject db st2 (processProject db st1 rec).2).1 hndrest ?_
    · simp only [processRecords]
      exact ⟨hrest.1.trans hsec.1, hrest.2.1.trans hsec.2.1, hrest.2.2.trans hsec.2.2⟩
    · intro k hk
      rw [hsec.1]
      rw [hagree k (List.mem_append_right _ hk)]
      simp only [processRecords]

/-! ## Back-propagated records on disk -/

theorem notBoth_parts (a b : Bool) (h : (!a && b) = true) : a = false ∧ b = true := by
  cases a <;> cases b <;> simp_all

theorem cond_false_parts (a : Bool) (p : Option Nat) (h : ¬ (a || p.isNone) = true) :
    a = false ∧ p.isSome = true := by
  cases a <;> cases p <;> simp_all

theorem scriptStep_unmodified (db : Option (String → DbResult)) (pid : String)
    (ex : Option ScriptEntry) (s : ProjectScript)
    (h : (scriptStep db pid ex s).modified = false) :
    (scriptStep db pid ex s).script = s := by
  by_cases h1 : (strFalsy s.type || s.plutusVersion.isNone) = true
  · have hdb : (dbStep db pid s).modified = false → (dbStep db pid s).script = s := by
      intro hm
      rcases db with _ | q
      · rw [dbStep_none_eq]
      · rcases hlk : lookupScriptInfo (some q) (jsToLowerCase s.scriptHash) with _ | info
        · rw [dbStep_miss q pid s hlk]
        · have hne : info.type ≠ "" := by
            rcases lookupScriptInfo_type _ _ _ hlk with hh | hh <;> simp [hh]
          rw [dbStep_hit q pid s info hlk hne] at hm
          rw [h1] at hm
          exact absurd hm (by simp)
    rcases ex with _ | e
    · rw [scriptStep_to_db_none db pid s h1] at h ⊢
      exact hdb h
    · by_cases hboth : (!(strFalsy e.type) && e.plutusVersion.isSome) = true
      · obtain ⟨hT, hP⟩ := notBoth_parts _ _ hboth
        rw [scriptStep_copy db pid e s h1 hT hP,
          copyFromIndex_eq pid s e.type e.plutusVersion hT hP] at h
        rw [h1] at h
        exact absurd h (by simp)
      · have hboth' : (!(strFalsy e.type) && e.plutusVersion.isSome) = false := by
          cases hx : (!(strFalsy e.type) && e.plutusVersion.isSome)
          · rfl
          · exact absurd hx hboth
        rw [scriptStep_to_db_some db pid e s h1 hboth'] at h ⊢
        exact hdb h
  · obtain ⟨hT, hP⟩ := cond_false_parts _ _ h1
    rw [scriptStep_shortcircuit db pid ex s hT hP]

theorem processScript_unmodified (db : Option (String → DbResult)) (pid : String)
    (st : BuilderState) (s : ProjectScript)
    (h : (processScript db pid st s).2.2 = false) :
    (processScript db pid st s).2.1 = s := by
  by_cases hh : s.scriptHash = ""
  · rw [processScript_empty db pid st s hh]
  · rw [processScript_ne db pid st s hh] at h ⊢
    exact scriptStep_unmodified db pid _ s h

theorem processScriptList_flag_mono (db : Option (String → DbResult)) (pid : String) :
    ∀ (ss : List ProjectScript) (st : BuilderState),
    (processScriptList db pid st ss true).2.2 = true := by
  intro ss
  induction ss with
  | nil => intro st; rfl
  | cons s rest ih =>
    intro st
    simp only [processScriptList, Bool.true_or]
    exact ih _

theorem processScriptList_unmodified (db : Option (String → DbResult)) (pid : String) :
    ∀ (ss : List ProjectScript) (st : BuilderState) (m : Bool),
    (processScriptList db pid st ss m).2.2 = false →
    (processScriptList db pid st ss m).2.1 = ss := by
  intro ss
  induction ss with
  | nil => intro st m _; rfl
  | cons s rest ih =>
    intro st m h
    simp only [processScriptList] at h ⊢
    have hflag : (processScript db pid st s).2.2 = false := by
      cases hx : (processScript db pid st s).2.2
      · rfl
      · exfalso
        rw [hx, Bool.or_true] at h
        rw [processScriptList_flag_mono db pid rest _] at h
        simp at h
    rw [ih (processScript db pid st s).1 (m || (processScript db pid st s).2.2) h]
    rw [processScript_unmodified db pid st s hflag]

/-- Either a project iteration staged nothing and handed the record
back unchanged, or it staged exactly the record it handed back, keyed
by the record's own path. -/
theorem processProject_files (db : Option (String → DbResult)) (st : BuilderState)
    (rec : String × Project) :
    ((processProject db st rec).1.filesToUpdate = st.filesToUpdate ∧
      (processProject db st rec).2.2 = rec.2) ∨
    ((processProject db st rec).1.filesToUpdate =
      mapSet st.filesToUpdate rec.1 (processProject db st rec).2.2) := by
  by_cases h : strFalsy (jsOrOpt rec.2.label rec.2.projectName) = true
  · left
    rw [processProject_skip db st rec h]
    exact ⟨rfl, rfl⟩
  · cases hl : jsOrOpt rec.2.label rec.2.projectName with
    | none => rw [hl] at h; simp [strFalsy] at h
    | some l =>
      have hne : ¬ l = "" := by
        intro e; rw [hl, e] at h; simp [strFalsy] at h
      simp only [processProject, hl, if_neg hne]
      by_cases hm : (processScriptList db (toKebabCase l)
          (upsertProject st (toKebabCase l) (newProjectEntry l rec.2)) rec.2.scripts false).2.2 = true
      · right
        rw [if_pos hm]
        rw [(processScriptList_frame db (toKebabCase l) rec.2.scripts _ false).2.2]
        rw [(upsertProject_frame st (toKebabCase l) (newProjectEntry l rec.2)).2.2.2.2.2]
      · left
        have hm' : (processScriptList db (toKebabCase l)
            (upsertProject st (toKebabCase l) (newProjectEntry l rec.2)) rec.2.scripts false).2.2
              = false := by
          cases hx : (processScriptList db (toKebabCase l)
              (upsertProject st (toKebabCase l) (newProjectEntry l rec.2)) rec.2.scripts false).2.2
          · rfl
          · exact absurd hx hm
        rw [if_neg hm]
        constructor
        · rw [(processScriptList_frame db (toKebabCase l) rec.2.scripts _ false).2.2]
          rw [(upsertProject_frame st (toKebabCase l) (newProjectEntry l rec.2)).2.2.2.2.2]
        · rw [processScriptList_unmodified db (toKebabCase l) rec.2.scripts _ false hm']

theorem processProject_files_ne (db : Option (String → DbResult)) (st : BuilderState)
    (rec : String × Project) (p : String) (hp : p ≠ rec.1) :
    mapGet (processProject db st rec).1.filesToUpdate p = mapGet st.filesToUpdate p := by
  rcases processProject_files db st rec with ⟨hf, _⟩ | hf
  · rw [hf]
  · rw [hf, mapGet_mapSet_ne _ _ _ _ hp]

theorem processRecords_files_ne (db : Option (String → DbResult)) :
    ∀ (recs : List (String × Project)) (st : BuilderState) (p : String),
    p ∉ recs.map Prod.fst →
    mapGet (processRecords db st recs).1.filesToUpdate p = mapGet st.filesToUpdate p := by
  intro recs
  induction recs with
  | nil => intro st p _; rfl
  | cons rec rest ih =>
    intro st p hp
    simp only [List.map_cons, List.mem_cons] at hp
    push_neg at hp
    simp only [processRecords]
    rw [ih _ _ hp.2, processProject_files_ne db st rec p hp.1]

/-- The records handed back in memory coincide with the records as
they stand on disk after the Persistence Gate commits the staged
rewrites: each file is overridden by its staged rewrite when one
exists. -/
theorem processRecords_disk (db : Option (String → DbResult)) :
    ∀ (recs : List (String × Project)) (st : BuilderState),
    (recs.map Prod.fst).Nodup →
    (∀ rec, rec ∈ recs → mapGet st.filesToUpdate rec.1 = none) →
    (processRecords db st recs).2 = recs.map (fun rec =>
      (rec.1, (mapGet (processRecords db st recs).1.filesToUpdate rec.1).getD rec.2)) := by
  intro recs
  induction recs with
  | nil => intro st _ _; rfl
  | cons rec rest ih =>
    intro st hnd hnone
    simp only [List.map_cons] at hnd
    have hheadnotin : rec.1 ∉ rest.map Prod.fst := (List.nodup_cons.mp hnd).1
    have hndrest : (rest.map Prod.fst).Nodup := (List.nodup_cons.mp hnd).2
    simp only [processRecords, List.map_cons]
    have hfinalhead : mapGet (processRecords db (processProject db st rec).1 rest).1.filesToUpdate rec.1
        = mapGet (processProject db st rec).1.filesToUpdate rec.1 :=
      processRecords_files_ne db rest _ rec.1 hheadnotin
    have hrecfst : (processProject db st rec).2.1 = rec.1 := (processProject_rec db st rec).1
    congr 1
    · -- head record
      rcases processProject_files db st rec with ⟨hf, hrec⟩ | hf
      · rw [hfinalhead, hf, hnone rec (List.mem_cons_self _ _)]
        exact Prod.ext hrecfst hrec
      · rw [hfinalhead, hf, mapGet_mapSet_self]
        exact Prod.ext hrecfst rfl
    · -- tail records
      have hnone' : ∀ r, r ∈ rest → mapGet (processProject db st rec).1.filesToUpdate r.1 = none := by
        intro r hr
        have hne : r.1 ≠ rec.1 := by
          intro e
          exact hheadnotin (e ▸ List.mem_map_of_mem Prod.fst hr)
        rw [processProject_files_ne db st rec r.1 hne]
        exact hnone r (List.mem_cons_of_mem _ hr)
      exact ih (processProject db st rec).1 hndrest hnone'

/-! ## Project upsert: last-write-wins and events -/

theorem processProject_projects_get (db : Option (String → DbResult)) (st : BuilderState)
    (rec : String × Project) (k : String) :
    mapGet (processProject db st rec).1.projects k =
      match entryIfProject rec k with
      | some e => some e
      | none => mapGet st.projects k := by
  by_cases h : strFalsy (jsOrOpt rec.2.label rec.2.projectName) = true
  · rw [processProject_skip db st rec h]
    cases hl : jsOrOpt rec.2.label rec.2.projectName with
    | none => simp [entryIfProject, hl]
    | some l =>
      rw [hl] at h
      have : l = "" := by simpa [strFalsy] using h
      simp [entryIfProject, hl, this]
  · cases hl : jsOrOpt rec.2.label rec.2.projectName with
    | none => rw [hl] at h; simp [strFalsy] at h
    | some l =>
      have hne : ¬ l = "" := by
        intro e; rw [hl, e] at h; simp [strFalsy] at h
      simp only [processProject, hl, if_neg hne]
      rw [(stageFile_frame _ _ _ _).2.1]
      rw [(processScriptList_frame db (toKebabCase l) rec.2.scripts _ false).1]
      rw [upsertProject_projects_get]
      simp only [entryIfProject, hl, if_neg hne]
      by_cases hk : k = toKebabCase l
      · rw [if_pos hk, if_pos hk.symm]
      · rw [if_neg hk, if_neg (fun e => hk e.symm)]

theorem processProject_events_eq (db : Option (String → DbResult)) (st : BuilderState)
    (rec : String × Project) :
    (processProject db st rec).1.projectEvents =
      match jsOrOpt rec.2.label rec.2.projectName with
      | none => st.projectEvents
      | some l =>
        if l = "" then st.projectEvents
        else if (mapGet st.projects (toKebabCase l)).isNone
             then st.projectEvents ++ [toKebabCase l]
             else st.projectEvents := by
  by_cases h : strFalsy (jsOrOpt rec.2.label rec.2.projectName) = true
  · rw [processProject_skip db st rec h]
    cases hl : jsOrOpt rec.2.label rec.2.projectName with
    | none => simp
    | some l =>
      rw [hl] at h
      have : l = "" := by simpa [strFalsy] using h
      simp [this]
  · cases hl : jsOrOpt rec.2.label rec.2.projectName with
    | none => rw [hl] at h; simp [strFalsy] at h
    | some l =>
      have hne : ¬ l = "" := by
        intro e; rw [hl, e] at h; simp [strFalsy] at h
      simp only [processProject, hl, if_neg hne]
      rw [(stageFile_frame _ _ _ _).2.2.2.2.2]
      rw [(processScriptList_frame db (toKebabCase l) rec.2.scripts _ false).2.1]
      rw [upsertProject_events]

theorem processRecords_projects_get (db : Option (String → DbResult)) :
    ∀ (recs : List (String × Project)) (st : BuilderState) (k : String),
    mapGet (processRecords db st recs).1.projects k =
      match specLastWriteWins recs k with
      | some e => some e
      | none => mapGet st.projects k := by
  intro recs
  induction recs with
  | nil => intro st k; rfl
  | cons rec rest ih =>
    intro st k
    simp only [processRecords]
    rw [ih]
    simp only [specLastWriteWins]
    cases hs : specLastWriteWins rest k with
    | some e => rfl
    | none =>
      rw [processProject_projects_get]

theorem processRecords_projects_mono (db : Option (String → DbResult)) :
    ∀ (recs : List (String × Project)) (st : BuilderState) (pid : String),
    (mapGet st.projects pid).isSome = true →
    (mapGet (processRecords db st recs).1.projects pid).isSome = true := by
  intro recs st pid h
  rw [processRecords_projects_get]
  cases hs : specLastWriteWins recs pid with
  | some e => rfl
  | none => exact h

theorem processRecords_events_count (db : Option (String → DbResult)) :
    ∀ (recs : List (String × Project)) (st : BuilderState) (pid : String),
    (processRecords db st recs).1.projectEvents.count pid =
      st.projectEvents.count pid +
        (if (mapGet st.projects pid).isSome then 0
         else if derivesPid recs pid then 1 else 0) := by
  intro recs
  induction recs with
  | nil =>
    intro st pid
    simp [processRecords, derivesPid]
  | cons rec rest ih =>
    intro st pid
    simp only [processRecords]
    rw [ih, processProject_events_eq, processProject_projects_get]
    have hder : derivesPid (rec :: rest) pid =
        ((entryIfProject rec pid).isSome || derivesPid rest pid) := by
      simp [derivesPid]
    rw [hder]
    cases hl : jsOrOpt rec.2.label rec.2.projectName with
    | none =>
      simp only [entryIfProject, hl]
      simp
    | some l =>
      by_cases hne : l = ""
      · subst hne
        simp only [entryIfProject, hl, if_pos rfl]
        simp
      · simp only [entryIfProject, hl, if_neg hne]
        by_cases hk : toKebabCase l = pid
        · rw [if_pos hk]
          subst hk
          cases hpre : mapGet st.projects (toKebabCase l) with
          | none =>
            simp [hpre, List.count_append]
          | some e0 =>
            simp [hpre]
        · rw [if_neg hk]
          have hpn : ¬ pid = toKebabCase l := fun e => hk e.symm
          have hcount : List.count pid (if (mapGet st.projects (toKebabCase l)).isNone = true
              then st.projectEvents ++ [toKebabCase l] else st.projectEvents)
              = List.count pid st.projectEvents := by
            split
            · rw [List.count_append]
              simp [List.count_cons, hpn]
            · rfl
          rw [hcount]
          simp

/-! ## Hash normalizer lemmas -/

theorem lowerChar_cases (c : Char) : lowerChar c = c ∨
    lowerChar c ∈ ['a','b','c','d','e','f','g','h','i','j','k','l','m',
                   'n','o','p','q','r','s','t','u','v','w','x','y','z'] := by
  unfold lowerChar
  split <;> first | (left; rfl) | (right; decide)

theorem lowerChar_idem (c : Char) : lowerChar (lowerChar c) = lowerChar c := by
  rcases lowerChar_cases c with h | h
  · rw [h]; exact h
  · simp only [List.mem_cons, List.not_mem_nil, or_false] at h
    repeat' rcases h with h | h
    all_goals rw [h]; decide

theorem jsToLowerCase_length (s : String) : (jsToLowerCase s).length = s.length := by
  show (s.data.map lowerChar).length = s.data.length
  exact List.length_map _ _

theorem jsToLowerCase_idem (s : String) : jsToLowerCase (jsToLowerCase s) = jsToLowerCase s := by
  simp only [jsToLowerCase, List.map_map]
  congr 1
  exact List.map_congr_left fun c _ => lowerChar_idem c

theorem normalizeHash_length_ne_112 (h : String) : (normalizeHash h).length ≠ 112 := by
  unfold normalizeHash
  by_cases hlen : h.length = 112
  · rw [if_pos hlen, jsToLowerCase_length]
    have hd : h.data.length = 112 := hlen
    have : (String.mk (h.data.take 56)).length = 56 := by
      show (h.data.take 56).length = 56
      rw [List.length_take]
      omega
    rw [this]
    omega
  · rw [if_neg hlen, jsToLowerCase_length]
    exact hlen

/-! ## `findPlutusV` agrees with the regex `/PlutusV(\d)/i` -/

theorem isPlutusVAt_sound (cs : List Char) (d : Nat) (h : isPlutusVAt cs = some d) :
    ∃ c1 c2 c3 c4 c5 c6 c7 cd post,
      cs = c1 :: c2 :: c3 :: c4 :: c5 :: c6 :: c7 :: cd :: post ∧
      lowerChar c1 = 'p' ∧ lowerChar c2 = 'l' ∧ lowerChar c3 = 'u' ∧ lowerChar c4 = 't' ∧
      lowerChar c5 = 'u' ∧ lowerChar c6 = 's' ∧ lowerChar c7 = 'v' ∧ cd.isDigit = true ∧
      d = cd.toNat - '0'.toNat := by
  rcases cs with _ | ⟨a1, _ | ⟨a2, _ | ⟨a3, _ | ⟨a4, _ | ⟨a5, _ | ⟨a6, _ | ⟨a7, _ | ⟨a8, tail⟩⟩⟩⟩⟩⟩⟩⟩ <;>
    simp only [isPlutusVAt] at h
  · exact absurd h (by simp)
  · exact absurd h (by simp)
  · exact absurd h (by simp)
  · exact absurd h (by simp)
  · exact absurd h (by simp)
  · exact absurd h (by simp)
  · exact absurd h (by simp)
  · exact absurd h (by simp)
  · split at h
    · rename_i hcond
      simp only [Bool.and_eq_true, beq_iff_eq] at hcond
      obtain ⟨⟨⟨⟨⟨⟨⟨h1, h2⟩, h3⟩, h4⟩, h5⟩, h6⟩, h7⟩, h8⟩ := hcond
      refine ⟨a1, a2, a3, a4, a5, a6, a7, a8, tail, rfl, h1, h2, h3, h4, h5, h6, h7, h8, ?_⟩
      cases h
      rfl
    · exact absurd h (by simp)

theorem findPlutusV_sound : ∀ (cs : List Char) (d : Nat), findPlutusV cs = some d →
    ∃ pre c1 c2 c3 c4 c5 c6 c7 cd post,
      cs = pre ++ c1 :: c2 :: c3 :: c4 :: c5 :: c6 :: c7 :: cd :: post ∧
      lowerChar c1 = 'p' ∧ lowerChar c2 = 'l' ∧ lowerChar c3 = 'u' ∧ lowerChar c4 = 't' ∧
      lowerChar c5 = 'u' ∧ lowerChar c6 = 's' ∧ lowerChar c7 = 'v' ∧ cd.isDigit = true ∧
      d = cd.toNat - '0'.toNat := by
  intro cs
  induction cs with
  | nil => intro d h; exact absurd h (by simp [findPlutusV])
  | cons c rest ih =>
    intro d h
    simp only [findPlutusV] at h
    cases hat : isPlutusVAt (c :: rest) with
    | some d0 =>
      rw [hat] at h
      cases h
      obtain ⟨c1, c2, c3, c4, c5, c6, c7, cd, post, heq, hs⟩ := isPlutusVAt_sound _ _ hat
      exact ⟨[], c1, c2, c3, c4, c5, c6, c7, cd, post, by simpa using heq, hs⟩
    | none =>
      rw [hat] at h
      obtain ⟨pre, c1, c2, c3, c4, c5, c6, c7, cd, post, heq, hs⟩ := ih d h
      exact ⟨c :: pre, c1, c2, c3, c4, c5, c6, c7, cd, post, by rw [List.cons_append, heq], hs⟩

theorem findPlutusV_complete :
    ∀ (pre : List Char) (c1 c2 c3 c4 c5 c6 c7 cd : Char) (post : List Char),
    lowerChar c1 = 'p' → lowerChar c2 = 'l' → lowerChar c3 = 'u' → lowerChar c4 = 't' →
    lowerChar c5 = 'u' → lowerChar c6 = 's' → lowerChar c7 = 'v' → cd.isDigit = true →
    (findPlutusV (pre ++ c1 :: c2 :: c3 :: c4 :: c5 :: c6 :: c7 :: cd :: post)).isSome = true := by
  intro pre
  induction pre with
  | nil =>
    intro c1 c2 c3 c4 c5 c6 c7 cd post h1 h2 h3 h4 h5 h6 h7 h8
    have hat : isPlutusVAt (c1 :: c2 :: c3 :: c4 :: c5 :: c6 :: c7 :: cd :: post)
        = some (cd.toNat - '0'.toNat) := by
      simp only [isPlutusVAt]
      rw [if_pos (by simp [h1, h2, h3, h4, h5, h6, h7, h8])]
    rw [List.nil_append]
    simp only [findPlutusV, hat]
    rfl
  | cons a pre ih =>
    intro c1 c2 c3 c4 c5 c6 c7 cd post h1 h2 h3 h4 h5 h6 h7 h8
    rw [List.cons_append]
    simp only [findPlutusV]
    cases hat : isPlutusVAt (a :: (pre ++ c1 :: c2 :: c3 :: c4 :: c5 :: c6 :: c7 :: cd :: post)) with
    | some d0 => rfl
    | none => exact ih c1 c2 c3 c4 c5 c6 c7 cd post h1 h2 h3 h4 h5 h6 h7 h8

/-! ## Further resolver field lemmas -/

theorem jsOrOpt_self (a : Option String) : jsOrOpt a a = a := by
  unfold jsOrOpt
  split <;> rfl

/-- In every resolution branch the candidate entry's and the
back-propagated script's `type` is `s.type || X` for some source `X`,
and their `plutusVersion` is `s.plutusVersion ?? Y` for some source
`Y`. -/
theorem scriptStep_type_pv (db : Option (String → DbResult)) (pid : String)
    (ex : Option ScriptEntry) (s : ProjectScript) :
    ∃ (X : Option String) (Y : Option Nat),
      (scriptStep db pid ex s).entry.type = jsOrOpt s.type X ∧
      (scriptStep db pid ex s).script.type = jsOrOpt s.type X ∧
      (scriptStep db pid ex s).entry.plutusVersion =
        (if s.plutusVersion.isNone then Y else s.plutusVersion) ∧
      (scriptStep db pid ex s).script.plutusVersion =
        (if s.plutusVersion.isNone then Y else s.plutusVersion) := by
  have hdb : ∃ (X : Option String) (Y : Option Nat),
      (dbStep db pid s).entry.type = jsOrOpt s.type X ∧
      (dbStep db pid s).script.type = jsOrOpt s.type X ∧
      (dbStep db pid s).entry.plutusVersion =
        (if s.plutusVersion.isNone then Y else s.plutusVersion) ∧
      (dbStep db pid s).script.plutusVersion =
        (if s.plutusVersion.isNone then Y else s.plutusVersion) := by
    rcases db with _ | q
    · refine ⟨s.type, s.plutusVersion, ?_, ?_, ?_, ?_⟩ <;>
        rw [dbStep_none_eq] <;> simp [jsOrOpt_self]
    · rcases hlk : lookupScriptInfo (some q) (jsToLowerCase s.scriptHash) with _ | info
      · refine ⟨s.type, s.plutusVersion, ?_, ?_, ?_, ?_⟩ <;>
          rw [dbStep_miss q pid s hlk] <;> simp [jsOrOpt_self]
      · have hne : info.type ≠ "" := by
          rcases lookupScriptInfo_type _ _ _ hlk with hh | hh <;> simp [hh]
        refine ⟨some info.type, some info.plutusVersion, ?_, ?_, ?_, ?_⟩ <;>
          rw [dbStep_hit q pid s info hlk hne]
  by_cases h1 : (strFalsy s.type || s.plutusVersion.isNone) = true
  · rcases ex with _ | e
    · rw [scriptStep_to_db_none db pid s h1]
      exact hdb
    · by_cases hboth : (!(strFalsy e.type) && e.plutusVersion.isSome) = true
      · obtain ⟨hT, hP⟩ := notBoth_parts _ _ hboth
        rw [scriptStep_copy db pid e s h1 hT hP,
          copyFromIndex_eq pid s e.type e.plutusVersion hT hP]
        exact ⟨e.type, e.plutusVersion, rfl, rfl, rfl, rfl⟩
      · have hboth' : (!(strFalsy e.type) && e.plutusVersion.isSome) = false := by
          cases hx : (!(strFalsy e.type) && e.plutusVersion.isSome)
          · rfl
          · exact absurd hx hboth
        rw [scriptStep_to_db_some db pid e s h1 hboth']
        exact hdb
  · obtain ⟨hT, hP⟩ := cond_false_parts _ _ h1
    rw [scriptStep_shortcircuit db pid ex s hT hP]
    refine ⟨s.type, s.plutusVersion, ?_, ?_, ?_, ?_⟩ <;> simp [jsOrOpt_self]

theorem entriesDiffer_iff (a b : ScriptEntry) : entriesDiffer a b = true ↔
    (a.projectId ≠ b.projectId ∨ a.name ≠ b.name ∨ a.purpose ≠ b.purpose ∨
     a.type ≠ b.type ∨ a.plutusVersion ≠ b.plutusVersion) := by
  simp [entriesDiffer]
  tauto

/-! ## Claim theorems -/

/-- C1 counterexample: the Builder's script ingestion
(`generate-script-index.ts` line 225) only lower-cases the raw hash and
never truncates, so a project script with a 112-hex-character hash is
written into the scripts map under a 112-character key — refuting the
claim that a 112-character key is never written by script ingestion. -/
theorem builder_writes_112_char_key :
    ((runBuilder none none [("b.json", proj112)] "t").index.scripts.map
      fun p => p.1.length) = [112] := by decide

/-- C1 (amended): the archived import tool's `normalizeHash` lower-cases
the whole string and truncates a 112-character hash to its first 56
characters; it is idempotent on 112-character input, and its output
never has length 112 (so that tool never writes a 112-character key).
The Builder's own ingestion, however, keys the scripts map by the
merely lower-cased hash, without truncation. -/
theorem normalizeHash_canonicalization :
    (∀ h : String, h.length = 112 →
      normalizeHash h = jsToLowerCase (String.mk (h.data.take 56)) ∧
      normalizeHash (normalizeHash h) = normalizeHash h) ∧
    (∀ h : String, (normalizeHash h).length ≠ 112) ∧
    (∀ (db : Option (String → DbResult)) (pid : String) (st : BuilderState) (s : ProjectScript),
      ¬ s.scriptHash = "" →
      (mapGet (processScript db pid st s).1.scripts (jsToLowerCase s.scriptHash)).isSome = true) := by
  refine ⟨?_, normalizeHash_length_ne_112, ?_⟩
  · intro h hlen
    have hx : normalizeHash h = jsToLowerCase (String.mk (h.data.take 56)) := by
      rw [normalizeHash, if_pos hlen]
    refine ⟨hx, ?_⟩
    have hlen' : (normalizeHash h).length ≠ 112 := normalizeHash_length_ne_112 h
    have houter : ∀ x : String, x.length ≠ 112 → normalizeHash x = jsToLowerCase x := by
      intro x hxl
      rw [normalizeHash, if_neg hxl]
    rw [houter _ hlen', hx, jsToLowerCase_idem]
  · intro db pid st s hne
    rw [processScript_ne db pid st s hne, diffApply_get_self]
    rfl

/-- C1 witness: the amended claim evaluated at a concrete
112-character hash and a concrete ingested script. -/
theorem normalizeHash_canonicalization_witness :
    (String.mk (List.replicate 112 'A')).length = 112 ∧
    normalizeHash (normalizeHash (String.mk (List.replicate 112 'A')))
      = normalizeHash (String.mk (List.replicate 112 'A')) ∧
    (mapGet (processScript none "b" (initState none) witnessScript).1.scripts
      (jsToLowerCase witnessScript.scriptHash)).isSome = true :=
  ⟨by decide,
   (normalizeHash_canonicalization.1 (String.mk (List.replicate 112 'A')) (by decide)).2,
   normalizeHash_canonicalization.2.2 none "b" (initState none) witnessScript (by decide)⟩

/-- C2 counterexample: with two script records sharing the normalized
hash `ab` but different names, the first run ends with the later
record's entry; the second run then flip-flops the entry twice and
reports 2 updated entries, not 0 — refuting unconditional merge
idempotence. -/
theorem second_run_updates_on_duplicate_hashes :
    (runBuilder none
      (some (runBuilder none none [("p.json", dupProject)] "t0").index)
      ([("p.json", dupProject)].map fun rec =>
        (rec.1, (mapGet (runBuilder none none [("p.json", dupProject)] "t0").filesToUpdate
          rec.1).getD rec.2))
      "t1").updated = 2 := by decide

/-- C2 (amended): when the project records come from distinct files and
no two script records of the pass share a normalized (lower-cased) hash
key, rerunning the Builder over the records as committed by the first
run (each file overridden by its staged back-propagation rewrite, if
any) against the index the first run produced reports zero added and
zero updated entries. -/
theorem merge_idempotent (db : Option (String → DbResult)) (idx0 : Option ScriptIndex)
    (recs : List (String × Project)) (t1 t2 : String)
    (hkeys : (allRecordKeys recs).Nodup)
    (hpaths : (recs.map Prod.fst).Nodup) :
    (runBuilder db (some (runBuilder db idx0 recs t1).index)
        (recs.map fun rec =>
          (rec.1, (mapGet (runBuilder db idx0 recs t1).filesToUpdate rec.1).getD rec.2))
        t2).added = 0 ∧
    (runBuilder db (some (runBuilder db idx0 recs t1).index)
        (recs.map fun rec =>
          (rec.1, (mapGet (runBuilder db idx0 recs t1).filesToUpdate rec.1).getD rec.2))
        t2).updated = 0 := by
  have hdisk : recs.map (fun rec =>
      (rec.1, (mapGet (runBuilder db idx0 recs t1).filesToUpdate rec.1).getD rec.2))
      = (processRecords db (initState idx0) recs).2 :=
    (processRecords_disk db recs (initState idx0) hpaths (fun rec _ => rfl)).symm
  have hsecond := processRecords_second db recs (initState idx0)
    (initState (some (runBuilder db idx0 recs t1).index)) hkeys (fun k _ => rfl)
  constructor
  · show (processRecords db (initState (some (runBuilder db idx0 recs t1).index))
      (recs.map fun rec =>
        (rec.1, (mapGet (runBuilder db idx0 recs t1).filesToUpdate rec.1).getD rec.2))).1.added = 0
    rw [hdisk]
    exact hsecond.2.1
  · show (processRecords db (initState (some (runBuilder db idx0 recs t1).index))
      (recs.map fun rec =>
        (rec.1, (mapGet (runBuilder db idx0 recs t1).filesToUpdate rec.1).getD rec.2))).1.updated = 0
    rw [hdisk]
    exact hsecond.2.2

/-- C2 witness: the amended claim at a one-project input with a single
distinct key. -/
theorem merge_idempotent_witness :
    (allRecordKeys [("a.json", witnessProject)]).Nodup ∧
    ([("a.json", witnessProject)].map Prod.fst).Nodup ∧
    (runBuilder none (some (runBuilder none none [("a.json", witnessProject)] "t0").index)
        ([("a.json", witnessProject)].map fun rec =>
          (rec.1, (mapGet (runBuilder none none [("a.json", witnessProject)] "t0").filesToUpdate
            rec.1).getD rec.2))
        "t1").added = 0 ∧
    (runBuilder none (some (runBuilder none none [("a.json", witnessProject)] "t0").index)
        ([("a.json", witnessProject)].map fun rec =>
          (rec.1, (mapGet (runBuilder none none [("a.json", witnessProject)] "t0").filesToUpdate
            rec.1).getD rec.2))
        "t1").updated = 0 :=
  ⟨by decide, by decide,
   (merge_idempotent none none [("a.json", witnessProject)] "t0" "t1" (by decide) (by decide)).1,
   (merge_idempotent none none [("a.json", witnessProject)] "t0" "t1" (by decide) (by decide)).2⟩

/-- C3: a prior index entry whose key is not produced by any script
record of the current pass survives a merge run unchanged — the
Builder/Diff Tracker never deletes or rewrites an untouched entry. -/
theorem merge_preserves_untouched_entries (db : Option (String → DbResult))
    (idx : ScriptIndex) (recs : List (String × Project)) (now : String)
    (k : String) (e : ScriptEntry)
    (hk : mapGet idx.scripts k = some e) (hnot : k ∉ allRecordKeys recs) :
    mapGet (runBuilder db (some idx) recs now).index.scripts k = some e := by
  show mapGet (processRecords db (initState (some idx)) recs).1.scripts k = some e
  rw [processRecords_get_ne db recs (initState (some idx)) k hnot]
  exact hk

/-- C3 witness: the enriched `deadbeef` entry survives a pass over a
record set that never mentions it. -/
theorem merge_preserves_untouched_entries_witness :
    mapGet witnessIndex.scripts "deadbeef"
      = some { projectId := "p", name := "Old", purpose := none,
               type := some "PLUTUS", plutusVersion := some 1 } ∧
    "deadbeef" ∉ allRecordKeys [("a.json", witnessProject)] ∧
    mapGet (runBuilder none (some witnessIndex) [("a.json", witnessProject)] "t").index.scripts
        "deadbeef"
      = some { projectId := "p", name := "Old", purpose := none,
               type := some "PLUTUS", plutusVersion := some 1 } :=
  ⟨by decide, by decide,
   merge_preserves_untouched_entries none witnessIndex [("a.json", witnessProject)] "t"
     "deadbeef" _ (by decide) (by decide)⟩

/-- C4: with a non-empty change set, a dry run performs no write at all
(neither project files nor the index file), while producing the very
same run result — hence identical added/updated/unchanged summary
counts — as a committing pass from the same pre-run state. -/
theorem dry_run_purity (db : Option (String → DbResult)) (idx0 : Option ScriptIndex)
    (recs : List (String × Project)) (now : String)
    (hchange : (runBuilder db idx0 recs now).added ≠ 0 ∨
      (runBuilder db idx0 recs now).updated ≠ 0 ∨
      (runBuilder db idx0 recs now).filesToUpdate ≠ []) :
    (generateScriptIndex true db idx0 recs now).2 = [] ∧
    (generateScriptIndex true db idx0 recs now).1
      = (generateScriptIndex false db idx0 recs now).1 :=
  ⟨rfl, rfl⟩

/-- C4 witness: the dry-run purity claim at a concrete input that adds
one entry. -/
theorem dry_run_purity_witness :
    (runBuilder none none [("a.json", witnessProject)] "t").added ≠ 0 ∧
    (generateScriptIndex true none none [("a.json", witnessProject)] "t").2 = [] ∧
    (generateScriptIndex true none none [("a.json", witnessProject)] "t").1
      = (generateScriptIndex false none none [("a.json", witnessProject)] "t").1 :=
  ⟨by decide,
   (dry_run_purity none none [("a.json", witnessProject)] "t" (Or.inl (by decide))).1,
   (dry_run_purity none none [("a.json", witnessProject)] "t" (Or.inl (by decide))).2⟩

/-- C5: a script record that already carries both a (truthy) `type` and
a `plutusVersion` short-circuits the Resolver: no db lookup is issued,
no index-copy resolution happens, the record is returned unchanged, the
dirty flag stays clear, and the candidate entry carries exactly the
record's own fields. -/
theorem resolver_short_circuit (db : Option (String → DbResult)) (pid : String)
    (ex : Option ScriptEntry) (s : ProjectScript) (t : String) (v : Nat)
    (ht : s.type = some t) (htne : t ≠ "") (hv : s.plutusVersion = some v) :
    scriptStep db pid ex s = ⟨⟨pid, s.name, s.purpose, some t, some v⟩, s, false, 0⟩ := by
  have hT : strFalsy s.type = false := by rw [ht]; simpa [strFalsy] using htne
  have hP : s.plutusVersion.isSome = true := by rw [hv]; rfl
  rw [scriptStep_shortcircuit db pid ex s hT hP, ht, hv]

/-- C5 witness: the short-circuit at a fully classified record. -/
theorem resolver_short_circuit_witness :
    scriptStep none "p" none
      { name := "S", scriptHash := "ab", purpose := none,
        type := some "PLUTUS", plutusVersion := some 2 }
      = ⟨⟨"p", "S", none, some "PLUTUS", some 2⟩,
         { name := "S", scriptHash := "ab", purpose := none,
           type := some "PLUTUS", plutusVersion := some 2 }, false, 0⟩ :=
  resolver_short_circuit none "p" none _ "PLUTUS" 2 rfl (by decide) rfl

/-- C6: the external lookup maps the `timelock` sentinel to
NATIVE/0 and a `PlutusV<digit>` classification (case-insensitive,
anywhere in the string — see `findPlutusV_sound`/`findPlutusV_complete`)
to PLUTUS with the parsed digit; a missing pool, a thrown query, an
empty result set or an unparseable classification all resolve to `none`
(unresolved) — the function is total, so no error can propagate. -/
theorem lookup_outcome_mapping (q : String → DbResult) (h : String) :
    (lookupScriptInfo none h = none) ∧
    (q h = DbResult.threw → lookupScriptInfo (some q) h = none) ∧
    (q h = DbResult.rows [] → lookupScriptInfo (some q) h = none) ∧
    (∀ c rest, q h = DbResult.rows (c :: rest) →
      ((c = "timelock" → lookupScriptInfo (some q) h = some ⟨"NATIVE", 0⟩) ∧
       (∀ d, findPlutusV c.data = some d → c ≠ "timelock" →
          lookupScriptInfo (some q) h = some ⟨"PLUTUS", d⟩) ∧
       (findPlutusV c.data = none → c ≠ "timelock" →
          lookupScriptInfo (some q) h = none))) := by
  refine ⟨rfl, ?_, ?_, ?_⟩
  · intro hq; simp [lookupScriptInfo, hq]
  · intro hq; simp [lookupScriptInfo, hq]
  · intro c rest hq
    refine ⟨?_, ?_, ?_⟩
    · intro hc; simp [lookupScriptInfo, hq, hc]
    · intro d hd hc; simp [lookupScriptInfo, hq, hc, hd]
    · intro hd hc; simp [lookupScriptInfo, hq, hc, hd]

/-- C6 witness: the outcome mapping at a concrete oracle returning
`PlutusV2`. -/
theorem lookup_outcome_mapping_witness :
    lookupScriptInfo (some fun _ => DbResult.rows ["PlutusV2"]) "ab"
      = some ⟨"PLUTUS", 2⟩ :=
  ((lookup_outcome_mapping (fun _ => DbResult.rows ["PlutusV2"]) "ab").2.2.2
    "PlutusV2" [] rfl).2.1 2 (by decide) (by decide)

/-- C7: the Diff Tracker inserts and counts `added` when no prior entry
exists, overwrites and counts `updated` when a prior entry differs in
any of the five fields, leaves the map untouched and counts `unchanged`
when the prior entry is field-for-field identical — and in every case
the three counters together grow by exactly one. -/
theorem diff_classification (st : BuilderState) (hash : String) (e : ScriptEntry) :
    (mapGet st.scripts hash = none →
      diffApply st hash e =
        { st with scripts := mapSet st.scripts hash e, added := st.added + 1 }) ∧
    (∀ ex, mapGet st.scripts hash = some ex →
      (ex.projectId ≠ e.projectId ∨ ex.name ≠ e.name ∨ ex.purpose ≠ e.purpose ∨
       ex.type ≠ e.type ∨ ex.plutusVersion ≠ e.plutusVersion) →
      diffApply st hash e =
        { st with scripts := mapSet st.scripts hash e, updated := st.updated + 1 }) ∧
    (∀ ex, mapGet st.scripts hash = some ex →
      ex.projectId = e.projectId → ex.name = e.name → ex.purpose = e.purpose →
      ex.type = e.type → ex.plutusVersion = e.plutusVersion →
      diffApply st hash e = { st with unchanged := st.unchanged + 1 }) ∧
    ((diffApply st hash e).added + (diffApply st hash e).updated + (diffApply st hash e).unchanged
      = st.added + st.updated + st.unchanged + 1) := by
  refine ⟨?_, ?_, ?_, diffApply_counts st hash e⟩
  · intro h
    unfold diffApply
    simp only [h]
  · intro ex hex hdif
    have hd : entriesDiffer ex e = true := (entriesDiffer_iff ex e).mpr hdif
    unfold diffApply
    simp only [hex, hd, if_true]
  · intro ex hex h1 h2 h3 h4 h5
    have hexe : ex = e := by
      cases ex; cases e; simp_all
    rw [hexe] at hex
    exact diffApply_unchanged st hash e hex

/-- C7 witness: the three-way classification applied at an empty map
(the `added` case). -/
theorem diff_classification_witness :
    mapGet (initState none).scripts "k" = none ∧
    diffApply (initState none) "k" { projectId := "p", name := "n", purpose := none,
                                     type := none, plutusVersion := none }
      = { initState none with
          scripts := mapSet (initState none).scripts "k"
            { projectId := "p", name := "n", purpose := none,
              type := none, plutusVersion := none },
          added := (initState none).added + 1 } :=
  ⟨rfl, (diff_classification (initState none) "k" _).1 rfl⟩

/-- C8: after every run (dry or committing — the finalized in-memory
index is the same), `metadata.scriptCount` equals the number of keys of
the scripts map and `metadata.projectCount` the number of keys of the
projects map; key lists stay duplicate-free when the loaded index was. -/
theorem index_counts_consistent (db : Option (String → DbResult)) (idx0 : Option ScriptIndex)
    (recs : List (String × Project)) (now : String)
    (hs : ((initState idx0).scripts.map Prod.fst).Nodup)
    (hp : ((initState idx0).projects.map Prod.fst).Nodup) :
    (runBuilder db idx0 recs now).index.metadata.scriptCount
      = ((runBuilder db idx0 recs now).index.scripts.map Prod.fst).length ∧
    ((runBuilder db idx0 recs now).index.scripts.map Prod.fst).Nodup ∧
    (runBuilder db idx0 recs now).index.metadata.projectCount
      = ((runBuilder db idx0 recs now).index.projects.map Prod.fst).length ∧
    ((runBuilder db idx0 recs now).index.projects.map Prod.fst).Nodup := by
  have hn := processRecords_nodup db recs (initState idx0) hs hp
  refine ⟨?_, hn.1, ?_, hn.2⟩
  · show (processRecords db (initState idx0) recs).1.scripts.length = _
    rw [List.length_map]
    rfl
  · show (processRecords db (initState idx0) recs).1.projects.length = _
    rw [List.length_map]
    rfl

/-- C8 witness: count consistency at a concrete one-project run from an
empty index. -/
theorem index_counts_consistent_witness :
    (((initState (none : Option ScriptIndex)).scripts.map Prod.fst).Nodup) ∧
    (((initState (none : Option ScriptIndex)).projects.map Prod.fst).Nodup) ∧
    ((runBuilder none none [("a.json", witnessProject)] "t").index.metadata.scriptCount
      = ((runBuilder none none [("a.json", witnessProject)] "t").index.scripts.map
          Prod.fst).length ∧
     ((runBuilder none none [("a.json", witnessProject)] "t").index.scripts.map Prod.fst).Nodup ∧
     (runBuilder none none [("a.json", witnessProject)] "t").index.metadata.projectCount
      = ((runBuilder none none [("a.json", witnessProject)] "t").index.projects.map
          Prod.fst).length ∧
     ((runBuilder none none [("a.json", witnessProject)] "t").index.projects.map
        Prod.fst).Nodup) :=
  ⟨by decide, by decide,
   index_counts_consistent none none [("a.json", witnessProject)] "t" (by decide) (by decide)⟩

/-- C9: the project entry at a derived id ends the run equal to the
entry built from the last record deriving that id (label, defaulted
category, subCategory and link all overwritten wholesale — absent
incoming values overwrite too), falling back to the prior index entry
when no record derives it; and a `+ Project:` event is recorded exactly
once for an id that is newly created during the run, never for an id
already present in the loaded index. -/
theorem project_upsert_last_write_wins (db : Option (String → DbResult))
    (idx0 : Option ScriptIndex) (recs : List (String × Project)) (now : String)
    (pid : String) :
    mapGet (runBuilder db idx0 recs now).index.projects pid =
      (match specLastWriteWins recs pid with
       | some e => some e
       | none => mapGet (initState idx0).projects pid) ∧
    ((runBuilder db idx0 recs now).projectEvents.count pid =
      (if (mapGet (initState idx0).projects pid).isSome then 0
       else if derivesPid recs pid then 1 else 0)) := by
  constructor
  · exact processRecords_projects_get db recs (initState idx0) pid
  · show List.count pid (processRecords db (initState idx0) recs).1.projectEvents = _
    rw [processRecords_events_count db recs (initState idx0) pid]
    simp [initState]

/-- C10: resolution never overwrites a present field: an authored
(truthy) `type` survives into both the candidate entry and the
back-propagated record, and an authored `plutusVersion` — including the
value 0 — survives likewise, whatever the resolution source said. -/
theorem resolver_preserves_present_fields (db : Option (String → DbResult)) (pid : String)
    (ex : Option ScriptEntry) (s : ProjectScript) :
    (∀ t, s.type = some t → t ≠ "" →
      (scriptStep db pid ex s).entry.type = some t ∧
      (scriptStep db pid ex s).script.type = some t) ∧
    (∀ v, s.plutusVersion = some v →
      (scriptStep db pid ex s).entry.plutusVersion = some v ∧
      (scriptStep db pid ex s).script.plutusVersion = some v) := by
  obtain ⟨X, Y, h1, h2, h3, h4⟩ := scriptStep_type_pv db pid ex s
  constructor
  · intro t ht htne
    have hf : strFalsy (some t) = false := by simpa [strFalsy] using htne
    have hXY : jsOrOpt s.type X = some t := by
      rw [ht]
      unfold jsOrOpt
      rw [hf]
      simp
    exact ⟨h1.trans hXY, h2.trans hXY⟩
  · intro v hv
    have hPn : s.plutusVersion.isNone = false := by rw [hv]; rfl
    have hYv : (if s.plutusVersion.isNone then Y else s.plutusVersion) = some v := by
      simp [hPn, hv]
    exact ⟨h3.trans hYv, h4.trans hYv⟩

/-- C10 witness: a record carrying only `plutusVersion = 0` keeps the 0
through resolution against an index entry that says version 3. -/
theorem resolver_preserves_present_fields_witness :
    (scriptStep none "p"
      (some { projectId := "q", name := "m", purpose := none,
              type := some "NATIVE", plutusVersion := some 3 })
      { name := "S", scriptHash := "ab", purpose := none,
        type := none, plutusVersion := some 0 }).entry.plutusVersion = some 0 ∧
    (scriptStep none "p"
      (some { projectId := "q", name := "m", purpose := none,
              type := some "NATIVE", plutusVersion := some 3 })
      { name := "S", scriptHash := "ab", purpose := none,
        type := none, plutusVersion := some 0 }).script.plutusVersion = some 0 :=
  (resolver_preserves_present_fields none "p"
    (some { projectId := "q", name := "m", purpose := none,
            type := some "NATIVE", plutusVersion := some 3 })
    { name := "S", scriptHash := "ab", purpose := none,
      type := none, plutusVersion := some 0 }).2 0 rfl
